import Mathlib

/-!
Verification development for the KCachegrind Callgrind/Cachegrind profile
loader (src/kcachegrind/cachegrindloader.cpp).  The loader is embedded
shallowly: `QString`/`FixString` views become `List Char`, the loader object's
mutable members become an explicit state record, and the main import loop
becomes a fold over the list of input lines.  Code of the repository that is
not part of the given sources (FixString, TraceData interning, TracePart cost
containers) is modelled from the specification; each such definition carries a
doc comment starting with `Modelled from the spec:`.
-/

set_option maxRecDepth 40000

/-! ## Basic character/string helpers over `List Char` -/

/-- Modelled from the spec: `FixString::stripPrefix` succeeds iff the view
starts with the literal; here only the test, callers drop the prefix. -/
def startsWithL (pat s : List Char) : Bool :=
  List.isPrefixOf pat s

/-- Modelled from the spec: whitespace test used by `stripSpaces` /
`QChar::isSpace`. -/
def isWS (c : Char) : Bool :=
  c.isWhitespace

/-- Modelled from the spec: `FixString::stripSpaces` — drop leading
whitespace. -/
def dropSpacesQ (s : List Char) : List Char :=
  s.dropWhile isWS

/-- Modelled from the spec: `stripSurroundingSpaces` — trim whitespace on both
ends. -/
def trimQ (s : List Char) : List Char :=
  ((s.dropWhile isWS).reverse.dropWhile isWS).reverse

/-- Decimal value of a digit list (helper for the `strip*Int*` models). -/
def toUIntVal (s : List Char) : Nat :=
  s.foldl (fun a c => 10 * a + (c.toNat - 48)) 0

/-- Modelled from the spec: `QString::toInt`/`toUInt` applied to a compression
index — the whole string must be a nonempty digit run, otherwise the decode
fails and the numeric out-value is 0. -/
def toUIntQ (s : List Char) : Nat :=
  if s ≠ [] ∧ s.all (fun c => c.isDigit) then toUIntVal s else 0

/-- Modelled from the spec: `FixString::stripUInt`/`stripUInt64` with
`skipSpacesAfter = false`.  On failure (no leading digit) nothing is consumed
and the out-parameter keeps its previous value `old` (the callers in
`parsePosition` pass uninitialised locals, modelled as 0). -/
def stripU64NSM (old : Nat) (s : List Char) : Nat × List Char :=
  let ds := s.takeWhile (fun c => c.isDigit)
  if ds = [] then (old, s) else (toUIntVal ds, s.drop ds.length)

/-- Modelled from the spec: `FixString::stripUInt`/`stripUInt64` with the
default `skipSpacesAfter = true` — whitespace after the number is consumed. -/
def stripU64M (old : Nat) (s : List Char) : Nat × List Char :=
  let ds := s.takeWhile (fun c => c.isDigit)
  if ds = [] then (old, s) else (toUIntVal ds, dropSpacesQ (s.drop ds.length))

/-- Modelled from the spec: checked `stripUInt64` (space-skipping) whose
boolean result the caller tests, as in the `jcnd=`/`jump=` handlers. -/
def stripU64Q (s : List Char) : Option (Nat × List Char) :=
  let ds := s.takeWhile (fun c => c.isDigit)
  if ds = [] then none else some (toUIntVal ds, dropSpacesQ (s.drop ds.length))

/-- First index of character `ch` (model of `QString::find(QChar)`). -/
def findIdxC (ch : Char) : List Char → Option Nat
  | [] => none
  | c :: cs => if c = ch then some 0 else (findIdxC ch cs).map (· + 1)

/-- First index of the substring `pat` (model of `Q3CString::find` /
`QString::find(const char*)`). -/
def findSubL (pat : List Char) : List Char → Option Nat
  | [] => if List.isPrefixOf pat ([] : List Char) then some 0 else none
  | c :: t =>
    if List.isPrefixOf pat (c :: t) then some 0 else (findSubL pat t).map (· + 1)

/-- Split into whitespace-separated words (model of the event-name list
produced for an `events:` line). -/
def wordsAux : List Char → List Char → List (List Char)
  | [], acc => if acc = [] then [] else [acc.reverse]
  | c :: cs, acc =>
    if isWS c then
      if acc = [] then wordsAux cs [] else acc.reverse :: wordsAux cs []
    else wordsAux cs (c :: acc)

/-- Modelled from the spec: `events:` declares whitespace-separated event
names. -/
def wordsL (s : List Char) : List (List Char) :=
  wordsAux s []

/-- Unsigned 32-bit wrap-around subtraction: the `uint` arithmetic
`currentPos.fromLine - diff` of the source. -/
def usub32 (a b : Nat) : Nat :=
  (a + (2 ^ 32 - b % 2 ^ 32)) % 2 ^ 32

/-- Unsigned 64-bit wrap-around subtraction: the `Addr` arithmetic
`currentPos.fromAddr - diff` of the source. -/
def usub64 (a b : Nat) : Nat :=
  (a + (2 ^ 64 - b % 2 ^ 64)) % 2 ^ 64

/-! ## Position specifications (cachegrindloader.cpp:204-324)

`PositionSpec` itself lives in tracedata.h (not among the given sources).
Modelled from the spec: a position is the quadruple
`(fromAddr, toAddr, fromLine, toLine)`. -/

structure PositionSpec where
  fromAddr : Nat := 0
  toAddr : Nat := 0
  fromLine : Nat := 0
  toLine : Nat := 0
deriving DecidableEq

/-- Result of `CachegrindLoader::parsePosition`: the boolean return value, the
final value of the by-reference `newPos` argument (which the caller passes
aliased to its running cursor on cost lines), the remaining view of the line,
and whether the negative-line-number warning was emitted. -/
structure PPOut where
  ok : Bool
  pos : PositionSpec
  rest : List Char
  warned : Bool
deriving DecidableEq

/-- Range suffix and trailing-space handling shared by the four literal/delta
branches of the line block (cachegrindloader.cpp:299-311). -/
def lineRange (np : PositionSpec) (s : List Char) : PPOut :=
  match s with
  | '+' :: s2 =>
    let r := stripU64M 0 s2
    { ok := true, pos := { np with toLine := np.fromLine + r.1 },
      rest := dropSpacesQ r.2, warned := false }
  | '-' :: s2 =>
    let r := stripU64M 0 s2
    { ok := true, pos := { np with toLine := r.1 },
      rest := dropSpacesQ r.2, warned := false }
  | ':' :: s2 =>
    let r := stripU64M 0 s2
    { ok := true, pos := { np with toLine := r.1 },
      rest := dropSpacesQ r.2, warned := false }
  | _ => { ok := true, pos := np, rest := dropSpacesQ s, warned := false }

/-- The `hasLineInfo` block of `parsePosition`
(cachegrindloader.cpp:266-321).  `cur` is the loader's `currentPos` member
(read for `*` and deltas), `np` the by-reference `newPos`.  The `-` branch
mirrors the source exactly, including the buggy boolean assignment
`diff = currentPos.fromLine < diff;` executed under the warning. -/
def parseLineBlock (cur np : PositionSpec) (s : List Char) : PPOut :=
  match s with
  | [] => { ok := false, pos := np, rest := s, warned := false }
  | c :: cs =>
    if c > '9' then { ok := false, pos := np, rest := c :: cs, warned := false }
    else if c = '*' then
      lineRange { np with fromLine := cur.fromLine, toLine := cur.toLine } cs
    else if c = '+' then
      let r := stripU64NSM 0 cs
      let fl := cur.fromLine + r.1
      lineRange { np with fromLine := fl, toLine := fl } r.2
    else if c = '-' then
      let r := stripU64NSM 0 cs
      if cur.fromLine < r.1 then
        -- kdWarning "negative line number ?!"; then the source's
        -- `diff = currentPos.fromLine < diff;` (a bool converted to uint)
        let d := if cur.fromLine < r.1 then 1 else 0
        let fl := usub32 cur.fromLine d
        { lineRange { np with fromLine := fl, toLine := fl } r.2 with warned := true }
      else
        let fl := usub32 cur.fromLine r.1
        lineRange { np with fromLine := fl, toLine := fl } r.2
    else if '0' ≤ c then
      let r := stripU64NSM 0 (c :: cs)
      lineRange { np with fromLine := r.1, toLine := r.1 } r.2
    else { ok := false, pos := np, rest := c :: cs, warned := false }

/-- Range suffix and trailing-space handling of the address block
(cachegrindloader.cpp:240-254). -/
def addrRange (np : PositionSpec) (s : List Char) : PPOut :=
  match s with
  | '+' :: s2 =>
    let r := stripU64M 0 s2
    { ok := true, pos := { np with toAddr := np.fromAddr + r.1 },
      rest := dropSpacesQ r.2, warned := false }
  | '-' :: s2 =>
    let r := stripU64M 0 s2
    { ok := true, pos := { np with toAddr := r.1 },
      rest := dropSpacesQ r.2, warned := false }
  | ':' :: s2 =>
    let r := stripU64M 0 s2
    { ok := true, pos := { np with toAddr := r.1 },
      rest := dropSpacesQ r.2, warned := false }
  | _ => { ok := true, pos := np, rest := dropSpacesQ s, warned := false }

/-- The `hasAddrInfo` block of `parsePosition`
(cachegrindloader.cpp:210-264). -/
def parseAddrBlock (cur np : PositionSpec) (s : List Char) : PPOut :=
  match s with
  | [] => { ok := false, pos := np, rest := s, warned := false }
  | c :: cs =>
    if c = '*' then
      addrRange { np with fromAddr := cur.fromAddr, toAddr := cur.toAddr } cs
    else if c = '+' then
      let r := stripU64NSM 0 cs
      let fa := cur.fromAddr + r.1
      addrRange { np with fromAddr := fa, toAddr := fa } r.2
    else if c = '-' then
      let r := stripU64NSM 0 cs
      let fa := usub64 cur.fromAddr r.1
      addrRange { np with fromAddr := fa, toAddr := fa } r.2
    else if '0' ≤ c then
      let r := stripU64NSM 0 (c :: cs)
      addrRange { np with fromAddr := r.1, toAddr := r.1 } r.2
    else { ok := false, pos := np, rest := c :: cs, warned := false }

/-- `CachegrindLoader::parsePosition` (cachegrindloader.cpp:204-324).
`cur` is the `currentPos` member; `np0` is the value of the by-reference
`newPos` argument on entry (the caller at line 755 passes `currentPos`
itself, so reads and writes alias). -/
def parsePos (hasAddr hasLine : Bool) (cur np0 : PositionSpec) (s : List Char) : PPOut :=
  if hasAddr then
    let ra := parseAddrBlock cur np0 s
    if ra.ok then
      if hasLine then
        let rl := parseLineBlock cur ra.pos ra.rest
        { rl with warned := ra.warned || rl.warned }
      else ra
    else ra
  else if hasLine then parseLineBlock cur np0 s
  else { ok := true, pos := np0, rest := s, warned := false }

/-! ## Compression dictionary (cachegrindloader.cpp:326-496)

The three id→entity tables are `Q3PtrVector`s.  A `Q3PtrVector` of size `n`
holds `n` nullable slots; `resize` keeps the slots below the new size,
`insert i d` sets slot `i` when `i` is in range, `at i` reads a slot. -/

structure CVec (α : Type) where
  size : Nat
  tbl : Nat → Option α

/-- A freshly `resize`d vector of `n` empty slots, as built by
`clearCompression` (cachegrindloader.cpp:327-338). -/
def CVec.mkInit (α : Type) (n : Nat) : CVec α :=
  ⟨n, fun _ => none⟩

/-- Grow-to-`2*i`-if-needed followed by `insert i a`
(cachegrindloader.cpp:359-368 and the analogous file/function blocks). -/
def CVec.ins (v : CVec α) (i : Nat) (a : α) : CVec α :=
  let sz := if v.size ≤ i then i * 2 else v.size
  if i < sz then
    ⟨sz, fun j => if j = i then some a else if j < sz then v.tbl j else none⟩
  else
    ⟨sz, fun j => if j < sz then v.tbl j else none⟩

/-- The test `(name[0] == '(') && name[1].isDigit()` deciding whether a name
uses the compressed format (cachegrindloader.cpp:343,387,430). -/
def isCompressedForm (name : List Char) : Bool :=
  match name with
  | '(' :: c :: _ => c.isDigit
  | _ => false

/-- Common shape of `compressedObject` / `compressedFile` /
`compressedFunction` (cachegrindloader.cpp:341-496): the three functions are
line-for-line clones that differ only in the graph-store interning call,
abstracted here as `resolve`.  A `none` result models the null pointer
returned on a malformed spec or an out-of-range / undefined reference (for
objects and files an undefined slot's null pointer is returned directly,
for functions it is caught by an explicit check — the returned value is
`none` either way). -/
def compressedGen (resolve : List Char → α) (v : CVec α) (name : List Char) :
    Option α × CVec α :=
  if isCompressedForm name then
    match findIdxC ')' name with
    | none => (none, v)
    | some p =>
      let index := toUIntQ ((name.drop 1).take (p - 1))
      if p + 1 < name.length then
        let nm := dropSpacesQ (name.drop (p + 1))
        (some (resolve nm), v.ins index (resolve nm))
      else if v.size ≤ index then (none, v)
      else (v.tbl index, v)
  else (some (resolve name), v)

/-- Classification of a name according to the compressed-string grammar, read
off the same tests `compressedGen` performs: `some (n, some nm)` is a
definition `(n) nm`, `some (n, none)` a reference `(n)`, and `none` a bare
name or a malformed spec. -/
def cKind (name : List Char) : Option (Nat × Option (List Char)) :=
  if isCompressedForm name then
    match findIdxC ')' name with
    | none => none
    | some p =>
      let index := toUIntQ ((name.drop 1).take (p - 1))
      if p + 1 < name.length then
        some (index, some (dropSpacesQ (name.drop (p + 1))))
      else some (index, none)
  else none

/-! ## Entities

The graph store (tracedata.h/cpp, not among the given sources) is modelled
from the spec: objects and files are interned by name, functions by the
`(name, file, object)` triple; the accessors create the canonical entity on
first use, so resolution never fails.  Entities are represented by their
interning keys. -/

/-- Modelled from the spec: a binary object, interned by name
(`TraceData::object`). -/
abbrev ObjE := List Char

/-- Modelled from the spec: a source file, interned by name
(`TraceData::file`). -/
abbrev FileE := List Char

/-- Modelled from the spec: a function, interned by the (name, file, object)
triple (`TraceData::function`); a `none` component is a null pointer
argument. -/
structure FuncE where
  fname : List Char
  ffile : Option FileE
  fobj : Option ObjE
deriving DecidableEq

/-- Modelled from the spec: an instruction, identified by (function,
address). -/
abbrev InstrE := FuncE × Nat

/-- Modelled from the spec: a source line, identified by (function, file,
line number); the file component mirrors the possibly-null `currentFile`
argument of `TraceFunction::line`. -/
abbrev LineE := FuncE × Option FileE × Nat

/-- `CachegrindLoader::compressedObject` (cachegrindloader.cpp:341-380). -/
def compressedObject (v : CVec ObjE) (name : List Char) : Option ObjE × CVec ObjE :=
  compressedGen (fun nm => nm) v name

/-- `CachegrindLoader::compressedFile` (cachegrindloader.cpp:385-424). -/
def compressedFile (v : CVec FileE) (name : List Char) : Option FileE × CVec FileE :=
  compressedGen (fun nm => nm) v name

/-- `CachegrindLoader::compressedFunction` (cachegrindloader.cpp:426-496).
The reference path's filling-in of a still-unset object pointer mutates the
entity, not its identity, and is not represented on interning keys. -/
def compressedFunction (v : CVec FuncE) (file : Option FileE) (obj : Option ObjE)
    (name : List Char) : Option FuncE × CVec FuncE :=
  compressedGen (fun nm => FuncE.mk nm file obj) v name

/-! ## Loader state (the mutable members of `CachegrindLoader` plus the
per-part data it writes, cachegrindloader.cpp:69-131 and 700-738)

`selfCosts` and `callCosts` are the accumulated per-entity part costs.
Modelled from the spec: per-part projections are cost-carrying siblings of
the entities; the part's own cost — what `_part->totals()->addCost(_part)`
sums at the end of the load — is the pointwise sum of the per-function part
projections, which receive one event vector per self-cost line.  `posParses`
is a ghost log of the `(hasAddrInfo, hasLineInfo)` configuration in force at
each cost-line `parsePosition` call (cachegrindloader.cpp:755). -/

inductive LType where
  | SelfCost
  | CallCost
  | BoringJump
  | CondJump
deriving DecidableEq

structure LState where
  -- compression dictionaries
  objVec : CVec ObjE
  fileVec : CVec FileE
  funcVec : CVec FuncE
  -- event schema
  subMapping : Option (List (List Char))
  -- current position configuration and cursor
  nextLineType : LType
  hasLineInfo : Bool
  hasAddrInfo : Bool
  currentPos : PositionSpec
  -- current function/line cursor
  currentObject : Option ObjE
  currentPartObject : Option ObjE
  currentFile : Option FileE
  currentPartFile : Option FileE
  currentFunction : Option FuncE
  currentPartFunction : Option FuncE
  currentFunctionSource : Option (FuncE × Option FileE)
  currentInstr : Option InstrE
  currentPartInstr : Option InstrE
  currentLine : Option LineE
  currentPartLine : Option LineE
  -- current call cursor
  currentCalledObject : Option ObjE
  currentCalledPartObject : Option ObjE
  currentCalledFile : Option FileE
  currentCalledPartFile : Option FileE
  currentCalledFunction : Option FuncE
  currentCalledPartFunction : Option FuncE
  currentCallCount : Nat
  -- current jump cursor
  currentJumpToFile : Option FileE
  currentJumpToFunction : Option FuncE
  targetPos : PositionSpec
  jumpsFollowed : Nat
  jumpsExecuted : Nat
  -- part metadata and cost store
  totals : List Nat
  totalsSet : Bool
  partInvalid : Bool
  threadID : Nat
  partNumber : Nat
  processID : Nat
  version : List Char
  timeframe : List Char
  trigger : Option (List Char)
  dataCommand : List Char
  costTypes : List (List Char × List Char × List Char)
  selfCosts : List (List Nat)
  callCosts : List (FuncE × Option FuncE × Nat × List Nat)
  -- ghost log of cost-line position-parser configurations
  posParses : List (Bool × Bool)

/-- The `"???"` dummy name (cachegrindloader.cpp:145-149). -/
def dummyStr : List Char :=
  ("???".toList)

/-- The dummy function `_data->function(_functionDummy, 0, 0)`
(cachegrindloader.cpp:598,616). -/
def dummyFun : FuncE :=
  ⟨dummyStr, none, none⟩

/-- State after `clearCompression()` and `clearPosition()` and the loop-entry
initialisation of `loadTraceInternal` (cachegrindloader.cpp:700-738). -/
def initState : LState where
  objVec := CVec.mkInit ObjE 100
  fileVec := CVec.mkInit FileE 1000
  funcVec := CVec.mkInit FuncE 10000
  subMapping := none
  nextLineType := LType.SelfCost
  hasLineInfo := true
  hasAddrInfo := false
  currentPos := {}
  currentObject := none
  currentPartObject := none
  currentFile := none
  currentPartFile := none
  currentFunction := none
  currentPartFunction := none
  currentFunctionSource := none
  currentInstr := none
  currentPartInstr := none
  currentLine := none
  currentPartLine := none
  currentCalledObject := none
  currentCalledPartObject := none
  currentCalledFile := none
  currentCalledPartFile := none
  currentCalledFunction := none
  currentCalledPartFunction := none
  currentCallCount := 0
  currentJumpToFile := none
  currentJumpToFunction := none
  targetPos := {}
  jumpsFollowed := 0
  jumpsExecuted := 0
  totals := []
  totalsSet := false
  partInvalid := false
  threadID := 0
  partNumber := 0
  processID := 0
  version := []
  timeframe := []
  trigger := none
  dataCommand := []
  costTypes := []
  selfCosts := []
  callCosts := []
  posParses := []

/-- `CachegrindLoader::ensureObject` (cachegrindloader.cpp:500-510). -/
def ensureObjectL (st : LState) : LState :=
  if st.currentObject.isSome then st
  else { st with currentObject := some dummyStr, currentPartObject := some dummyStr }

/-- `CachegrindLoader::ensureFile` (cachegrindloader.cpp:545-555). -/
def ensureFileL (st : LState) : LState :=
  if st.currentFile.isSome then st
  else { st with currentFile := some dummyStr, currentPartFile := some dummyStr }

/-- `CachegrindLoader::ensureFunction` (cachegrindloader.cpp:590-600). -/
def ensureFunctionL (st : LState) : LState :=
  if st.currentFunction.isSome then st
  else { st with currentFunction := some dummyFun, currentPartFunction := some dummyFun }

/-- `CachegrindLoader::setObject` (cachegrindloader.cpp:512-526). -/
def setObjectL (name : List Char) (st : LState) : LState :=
  let r := compressedObject st.objVec name
  let obj := r.1.getD dummyStr
  { st with objVec := r.2,
            currentObject := some obj, currentPartObject := some obj,
            currentFunction := none, currentPartFunction := none }

/-- `CachegrindLoader::setCalledObject` (cachegrindloader.cpp:528-541). -/
def setCalledObjectL (name : List Char) (st : LState) : LState :=
  let r := compressedObject st.objVec name
  let obj := r.1.getD dummyStr
  { st with objVec := r.2,
            currentCalledObject := some obj, currentCalledPartObject := some obj }

/-- `CachegrindLoader::setFile` (cachegrindloader.cpp:557-572). -/
def setFileL (name : List Char) (st : LState) : LState :=
  let r := compressedFile st.fileVec name
  let f := r.1.getD dummyStr
  { st with fileVec := r.2,
            currentFile := some f, currentPartFile := some f,
            currentLine := none, currentPartLine := none }

/-- `CachegrindLoader::setCalledFile` (cachegrindloader.cpp:574-587). -/
def setCalledFileL (name : List Char) (st : LState) : LState :=
  let r := compressedFile st.fileVec name
  let f := r.1.getD dummyStr
  { st with fileVec := r.2,
            currentCalledFile := some f, currentCalledPartFile := some f }

/-- `CachegrindLoader::setFunction` (cachegrindloader.cpp:602-626). -/
def setFunctionL (name : List Char) (st : LState) : LState :=
  let st1 := ensureObjectL (ensureFileL st)
  let r := compressedFunction st1.funcVec st1.currentFile st1.currentObject name
  let f := r.1.getD dummyFun
  { st1 with funcVec := r.2,
             currentFunction := some f, currentPartFunction := some f,
             currentFunctionSource := none,
             currentLine := none, currentPartLine := none }

/-- `CachegrindLoader::setCalledFunction` (cachegrindloader.cpp:628-657). -/
def setCalledFunctionL (name : List Char) (st : LState) : LState :=
  let st1 :=
    if st.currentCalledObject = none then
      { st with currentCalledObject := st.currentObject,
                currentCalledPartObject := st.currentPartObject }
    else st
  let st2 :=
    if st1.currentCalledFile = none then
      { st1 with currentCalledFile := st1.currentFile,
                 currentCalledPartFile := st1.currentPartFile }
    else st1
  let r := compressedFunction st2.funcVec st2.currentCalledFile st2.currentCalledObject name
  let f := r.1.getD dummyFun
  { st2 with funcVec := r.2,
             currentCalledFunction := some f, currentCalledPartFunction := some f }

/-- Modelled from the spec: `TraceCost::set`/`addCost(subMapping, line)` read
one unsigned value per declared event, skipping whitespace; a missing value
is 0. -/
def readVec : Nat → List Char → List Nat
  | 0, _ => []
  | k + 1, s =>
    let s1 := dropSpacesQ s
    let ds := s1.takeWhile (fun c => c.isDigit)
    let v := if ds = [] then 0 else toUIntVal ds
    v :: readVec k (s1.drop ds.length)

/-- Pointwise sum of two event vectors (Modelled from the spec:
`TraceCost::addCost`). -/
def addVec : List Nat → List Nat → List Nat
  | [], ys => ys
  | x :: xs, [] => x :: xs
  | x :: xs, y :: ys => (x + y) :: addVec xs ys

/-- Pointwise sum of a list of event vectors. -/
def sumCosts (l : List (List Nat)) : List Nat :=
  l.foldl addVec []

/-- Identifier characters accepted by `FixString::stripName` (Modelled from
the spec: "consume an identifier"). -/
def isIdentC (c : Char) : Bool :=
  c.isAlphanum || c = '_'

/-- The epilogue of the jump branches of the cost-line processor
(cachegrindloader.cpp:1217-1261; the `FixJump` recording itself is compiled
out because `USE_FIXCOST` is not defined for this file). -/
def jumpFinish (st : LState) : Bool × LState :=
  let st1 :=
    if st.currentJumpToFunction = none then
      { st with currentJumpToFunction := st.currentFunction }
    else st
  (true, { st1 with nextLineType := LType.SelfCost,
                    currentJumpToFunction := none, currentJumpToFile := none })

/-- The `hasAddrInfo` instruction-fetch block of the cost-line processor
(cachegrindloader.cpp:1074-1091); `fn` is the ensured current function. -/
def fetchInstr (fn : FuncE) (st : LState) : LState :=
  if st.hasAddrInfo then
    match st.currentInstr with
    | some i =>
      if i.2 = st.currentPos.fromAddr then st
      else { st with currentInstr := some (fn, st.currentPos.fromAddr),
                     currentPartInstr := some (fn, st.currentPos.fromAddr) }
    | none =>
      { st with currentInstr := some (fn, st.currentPos.fromAddr),
                currentPartInstr := some (fn, st.currentPos.fromAddr) }
  else st

/-- The `hasLineInfo` line-fetch block of the cost-line processor
(cachegrindloader.cpp:1093-1105). -/
def fetchLine (fn : FuncE) (st : LState) : LState :=
  if st.hasLineInfo then
    match st.currentLine with
    | some ln =>
      if ln.2.2 = st.currentPos.fromLine then st
      else { st with currentLine := some (fn, st.currentFile, st.currentPos.fromLine),
                     currentPartLine := some (fn, st.currentFile, st.currentPos.fromLine) }
    | none =>
      { st with currentLine := some (fn, st.currentFile, st.currentPos.fromLine),
                currentPartLine := some (fn, st.currentFile, st.currentPos.fromLine) }
  else st

/-- Processing of a cost line after a successful `parsePosition`
(cachegrindloader.cpp:1059-1261, with `USE_FIXCOST` undefined so the `#else`
branches are active).  `rest` is the remaining view holding the event
vector.  The first component is false exactly when the load aborts
(`return false` at line 1061). -/
def processCost (st0 : LState) (rest : List Char) : Bool × LState :=
  match st0.subMapping with
  | none => (false, st0)
  | some m =>
    let st1 := ensureFunctionL st0
    let fn := st1.currentFunction.getD dummyFun
    let st3 := fetchLine fn (fetchInstr fn st1)
    match st3.nextLineType with
    | LType.SelfCost =>
      let vec := readVec m.length rest
      let st4 :=
        if st3.hasAddrInfo || st3.hasLineInfo then
          { st3 with selfCosts := st3.selfCosts ++ [vec] }
        else st3
      (true, st4)
    | LType.CallCost =>
      let st4 := { st3 with nextLineType := LType.SelfCost }
      let vec := readVec m.length rest
      let st5 :=
        if st4.hasAddrInfo || st4.hasLineInfo then
          { st4 with callCosts :=
              st4.callCosts ++ [(fn, st4.currentCalledFunction, st4.currentCallCount, vec)] }
        else st4
      (true, { st5 with currentCalledFile := none, currentCalledPartFile := none,
                        currentCalledObject := none, currentCalledPartObject := none,
                        currentCallCount := 0 })
    | LType.BoringJump => jumpFinish st3
    | LType.CondJump => jumpFinish st3

/-- The `case 'f'` branch of the dispatch switch
(cachegrindloader.cpp:766-798). -/
def handleF (st : LState) (rest : List Char) : Bool × LState :=
  if startsWithL ("l=".toList) rest || startsWithL ("i=".toList) rest ||
     startsWithL ("e=".toList) rest then
    (true, setFileL (rest.drop 2) st)
  else if startsWithL ("n=".toList) rest then
    (true, setFunctionL (rest.drop 2) st)
  else (true, st)

/-- The `case 'c'` branch (cachegrindloader.cpp:800-849). -/
def handleC (st : LState) (rest : List Char) : Bool × LState :=
  if startsWithL ("ob=".toList) rest then
    (true, setCalledObjectL (rest.drop 3) st)
  else if startsWithL ("fi=".toList) rest then
    (true, setCalledFileL (rest.drop 3) st)
  else if startsWithL ("fn=".toList) rest then
    (true, setCalledFunctionL (rest.drop 3) st)
  else if startsWithL ("alls=".toList) rest then
    let r := stripU64M st.currentCallCount (rest.drop 5)
    (true, { st with currentCallCount := r.1, nextLineType := LType.CallCost })
  else if startsWithL ("md:".toList) rest then
    (true, { st with dataCommand := trimQ (rest.drop 3) })
  else (true, st)

/-- The `case 'j'` branch (cachegrindloader.cpp:851-907).  In `jcnd=` and
`jump=` the counters are written as soon as their own decode succeeds, even
when a later part of the record is invalid (the `&&` chain of the source). -/
def handleJ (st : LState) (rest : List Char) : Bool × LState :=
  if startsWithL ("cnd=".toList) rest then
    match stripU64Q (rest.drop 4) with
    | none => (true, st)
    | some (jf, s1) =>
      let st1 := { st with jumpsFollowed := jf }
      match s1 with
      | '/' :: s2 =>
        match stripU64Q s2 with
        | none => (true, st1)
        | some (je, s3) =>
          let st2 := { st1 with jumpsExecuted := je }
          let r := parsePos st2.hasAddrInfo st2.hasLineInfo st2.currentPos st2.targetPos s3
          let st3 := { st2 with targetPos := r.pos }
          if r.ok then (true, { st3 with nextLineType := LType.CondJump })
          else (true, st3)
      | _ => (true, st1)
  else if startsWithL ("ump=".toList) rest then
    match stripU64Q (rest.drop 4) with
    | none => (true, st)
    | some (je, s1) =>
      let st1 := { st with jumpsExecuted := je }
      let r := parsePos st1.hasAddrInfo st1.hasLineInfo st1.currentPos st1.targetPos s1
      let st2 := { st1 with targetPos := r.pos }
      if r.ok then (true, { st2 with nextLineType := LType.BoringJump })
      else (true, st2)
  else if startsWithL ("fi=".toList) rest then
    let r := compressedFile st.fileVec (rest.drop 3)
    (true, { st with fileVec := r.2, currentJumpToFile := r.1 })
  else if startsWithL ("fn=".toList) rest then
    let st1 :=
      if st.currentJumpToFile = none then
        { st with currentJumpToFile := st.currentFile }
      else st
    let r := compressedFunction st1.funcVec st1.currentJumpToFile st1.currentObject
               (rest.drop 3)
    (true, { st1 with funcVec := r.2, currentJumpToFunction := r.1 })
  else (true, st)

/-- The `case 'o'` branch (cachegrindloader.cpp:909-917). -/
def handleO (st : LState) (rest : List Char) : Bool × LState :=
  if startsWithL ("b=".toList) rest then (true, setObjectL (rest.drop 2) st)
  else (true, st)

/-- The `case 't'` branch (cachegrindloader.cpp:922-939). -/
def handleT (st : LState) (rest : List Char) : Bool × LState :=
  if startsWithL ("otals:".toList) rest then (true, st)
  else if startsWithL ("hread:".toList) rest then
    (true, { st with threadID := toUIntQ (trimQ (rest.drop 6)) })
  else if startsWithL ("imeframe (BB):".toList) rest then
    (true, { st with timeframe := rest.drop 14 })
  else (true, st)

/-- The `case 'd'` branch (cachegrindloader.cpp:941-955). -/
def handleD (st : LState) (rest : List Char) : Bool × LState :=
  if startsWithL ("esc:".toList) rest then
    let s := trimQ (rest.drop 4)
    if startsWithL ("Trigger:".toList) s then
      (true, { st with trigger := some (s.drop 8) })
    else (true, st)
  else (true, st)

/-- The `case 'e'` branch (cachegrindloader.cpp:957-987). -/
def handleE (st : LState) (rest : List Char) : Bool × LState :=
  if startsWithL ("vents:".toList) rest then
    (true, { st with subMapping := some (wordsL (rest.drop 6)) })
  else if startsWithL ("vent:".toList) rest then
    let s := trimQ (rest.drop 5)
    let nm := s.takeWhile isIdentC
    if nm = [] then (true, st)
    else
      let s1 := dropSpacesQ (s.drop nm.length)
      match s1 with
      | [] => (true, st)
      | c2 :: s2 =>
        if c2 = '=' then
          let f := s2.takeWhile (fun ch => ch ≠ ':')
          let s3 := dropSpacesQ ((s2.drop f.length).drop 1)
          let ln := if s3 = [] then nm else s3
          (true, { st with costTypes := st.costTypes ++ [(nm, ln, f)] })
        else
          let s3 := dropSpacesQ s2
          let ln := if s3 = [] then nm else s3
          (true, { st with costTypes := st.costTypes ++ [(nm, ln, [])] })
  else (true, st)

/-- The `case 'p'` branch (cachegrindloader.cpp:989-1010). -/
def handleP (st : LState) (rest : List Char) : Bool × LState :=
  if startsWithL ("art:".toList) rest then
    (true, { st with partNumber := toUIntQ (trimQ (rest.drop 4)) })
  else if startsWithL ("id:".toList) rest then
    (true, { st with processID := toUIntQ (trimQ (rest.drop 3)) })
  else if startsWithL ("ositions:".toList) rest then
    let s := rest.drop 9
    (true, { st with hasLineInfo := (findSubL ("line".toList) s).isSome,
                     hasAddrInfo := (findSubL ("instr".toList) s).isSome })
  else (true, st)

/-- The `case 'v'` branch (cachegrindloader.cpp:1012-1019). -/
def handleV (st : LState) (rest : List Char) : Bool × LState :=
  if startsWithL ("ersion:".toList) rest then
    (true, { st with version := rest.drop 7 })
  else (true, st)

/-- The `case 's'` branch (cachegrindloader.cpp:1021-1032), including the
source's missing `break` before `case 'r'`: a line starting with `s` that is
not `summary:` falls through into the `rcalls=` test.  `summary:` with no
event schema yet is the fatal `return false` at line 1027. -/
def handleS (st : LState) (rest : List Char) : Bool × LState :=
  if startsWithL ("ummary:".toList) rest then
    match st.subMapping with
    | none => (false, st)
    | some m => (true, { st with totals := readVec m.length (rest.drop 7) })
  else if startsWithL ("calls=".toList) rest then
    let r := stripU64M st.currentCallCount (rest.drop 6)
    (true, { st with currentCallCount := r.1, nextLineType := LType.CallCost })
  else (true, st)

/-- The `case 'r'` branch: deprecated `rcalls=`
(cachegrindloader.cpp:1034-1048). -/
def handleR (st : LState) (rest : List Char) : Bool × LState :=
  if startsWithL ("calls=".toList) rest then
    let r := stripU64M st.currentCallCount (rest.drop 6)
    (true, { st with currentCallCount := r.1, nextLineType := LType.CallCost })
  else (true, st)

/-- The header-line branch of the main loop: the `switch(c)` on the first
(already stripped) character of a non-position line
(cachegrindloader.cpp:759-1057).  `rest` is the line after `c`.  The first
component is false exactly when the load aborts (the fatal `summary:`
path at line 1027). -/
def headerDispatch (st : LState) (c : Char) (rest : List Char) : Bool × LState :=
  if c = 'f' then handleF st rest
  else if c = 'c' then handleC st rest
  else if c = 'j' then handleJ st rest
  else if c = 'o' then handleO st rest
  else if c = 't' then handleT st rest
  else if c = 'd' then handleD st rest
  else if c = 'e' then handleE st rest
  else if c = 'p' then handleP st rest
  else if c = 'v' then handleV st rest
  else if c = 's' then handleS st rest
  else if c = 'r' then handleR st rest
  else (true, st)

/-- One iteration of the main loop for one input line
(cachegrindloader.cpp:740-1262).  An empty line is skipped; a line whose
first character is at most `'9'` goes to `parsePosition` (on the aliased
`currentPos`) and, on success, to cost processing; any other line has its
first character stripped and is dispatched on it. -/
def stepLine (st : LState) (l : List Char) : Bool × LState :=
  match l with
  | [] => (true, st)
  | c :: rest =>
    if c ≤ '9' then
      let st1 := { st with posParses := st.posParses ++ [(st.hasAddrInfo, st.hasLineInfo)] }
      let r := parsePos st1.hasAddrInfo st1.hasLineInfo st1.currentPos st1.currentPos (c :: rest)
      let st2 := { st1 with currentPos := r.pos }
      if r.ok then processCost st2 r.rest else (true, st2)
    else headerDispatch st c rest

/-- The end-of-input epilogue (cachegrindloader.cpp:1265-1271):
`_part->invalidate()`, then — `totalsSet` being still false — the totals are
cleared and recomputed as the part's accumulated cost. -/
def finalizeL (st : LState) : LState :=
  let st1 := { st with partInvalid := true }
  if st1.totalsSet then st1
  else { st1 with totals := sumCosts st1.selfCosts }

/-- Run the main loop over a prefix of the input without the end-of-input
epilogue; the boolean is false when the load aborted (the state is then the
state at the abort). -/
def runPre (st : LState) : List (List Char) → Bool × LState
  | [] => (true, st)
  | l :: ls =>
    let r := stepLine st l
    if r.1 then runPre r.2 ls else r

/-- `CachegrindLoader::loadTraceInternal` from the loop entry on
(cachegrindloader.cpp:740-1276), on the list of input lines: run the loop,
then the epilogue; returns the success flag and the final state. -/
def loadLines (st : LState) : List (List Char) → Bool × LState
  | [] => (true, finalizeL st)
  | l :: ls =>
    let r := stepLine st l
    if r.1 then loadLines r.2 ls else r

/-- The whole load of one part from its (already line-split) file
contents. -/
def loadTraceLn (lines : List (List Char)) : Bool × LState :=
  loadLines initState lines

/-! ## Format detection (cachegrindloader.cpp:152-178) -/

/-- The literal searched for by the detector. -/
def evStrL : List Char :=
  ("events:".toList)

/-- `CachegrindLoader::canLoadTrace` on the file contents: read at most 2047
bytes, find the first occurrence of `events:`, and accept iff it is at
offset 0 or directly preceded by a newline (cachegrindloader.cpp:168-177).
Embedded NUL bytes (which would truncate the C string search) are not
modelled; the format is text. -/
def canLoadTrace (content : List Char) : Bool :=
  let s := content.take 2047
  match findSubL evStrL s with
  | none => false
  | some 0 => true
  | some (p + 1) => s.get? p = some '\n'

/-- The spec's detection predicate, stated from its words: `events:` appears
within the first 2047 bytes at the start of a line, i.e. at
beginning-of-file or preceded by a newline (spec §6 Detection). -/
def hasLineInitialEvents (content : List Char) : Bool :=
  let s := content.take 2047
  (List.range s.length).any fun p =>
    startsWithL evStrL (s.drop p) && (p = 0 || s.get? (p - 1) = some '\n')

/-! ## Sequences of compression lines (for the dictionary-stability claim) -/

/-- Fold `compressedObject` over a sequence of object-declaration values,
collecting each resolution (the loader feeds the value of every `ob=`/`cob=`
line to `compressedObject` against the single `_objectVector`). -/
def runObjSeq (v : CVec ObjE) : List (List Char) → List (Option ObjE) × CVec ObjE
  | [] => ([], v)
  | l :: ls =>
    let r := compressedObject v l
    let rest := runObjSeq r.2 ls
    (r.1 :: rest.1, rest.2)

/-- Fold `compressedFile` over a sequence of file-declaration values. -/
def runFileSeq (v : CVec FileE) : List (List Char) → List (Option FileE) × CVec FileE
  | [] => ([], v)
  | l :: ls =>
    let r := compressedFile v l
    let rest := runFileSeq r.2 ls
    (r.1 :: rest.1, rest.2)

/-- Fold `compressedFunction` over a sequence of function-declaration values,
each paired with the `(file, object)` context the loader passes at that
line. -/
def runFuncSeq (v : CVec FuncE) :
    List ((Option FileE × Option ObjE) × List Char) → List (Option FuncE) × CVec FuncE
  | [] => ([], v)
  | ((f, o), l) :: ls =>
    let r := compressedFunction v f o l
    let rest := runFuncSeq r.2 ls
    (r.1 :: rest.1, rest.2)

/-- The entity bound by the most recent definition of slot `n` in an object
sequence (spec §8, property 1). -/
def lastDefObj (cmds : List (List Char)) (n : Nat) : Option ObjE :=
  cmds.foldl
    (fun acc l =>
      match cKind l with
      | some (m, some nm) => if m = n then some nm else acc
      | _ => acc)
    none

/-- The entity bound by the most recent definition of slot `n` in a file
sequence. -/
def lastDefFile (cmds : List (List Char)) (n : Nat) : Option FileE :=
  cmds.foldl
    (fun acc l =>
      match cKind l with
      | some (m, some nm) => if m = n then some nm else acc
      | _ => acc)
    none

/-- The entity bound by the most recent definition of slot `n` in a function
sequence (the interned triple uses the context of the defining line). -/
def lastDefFunc (cmds : List ((Option FileE × Option ObjE) × List Char)) (n : Nat) :
    Option FuncE :=
  cmds.foldl
    (fun acc gl =>
      match cKind gl.2 with
      | some (m, some nm) => if m = n then some (FuncE.mk nm gl.1.1 gl.1.2) else acc
      | _ => acc)
    none

/-! ## Line classification predicates (read off the dispatch branches) -/

/-- A line handled by the `events:` branch (cachegrindloader.cpp:960-964):
first character `e`, remainder starting with `vents:`. -/
def isEventsLine (l : List Char) : Bool :=
  match l with
  | c :: rest => c = 'e' && startsWithL ("vents:".toList) rest
  | [] => false

/-- A line handled by the `positions:` branch (cachegrindloader.cpp:1004-1009). -/
def isPositionsLine (l : List Char) : Bool :=
  match l with
  | c :: rest => c = 'p' && startsWithL ("ositions:".toList) rest
  | [] => false

/-- A line handled by the `summary:` branch (cachegrindloader.cpp:1024-1032). -/
def isSummaryLine (l : List Char) : Bool :=
  match l with
  | c :: rest => c = 's' && startsWithL ("ummary:".toList) rest
  | [] => false

/-- Classification of a line, at loader state `st`, as one that reaches the
cost-attribution path or the `summary:` handler: either its first character
is at most `'9'` and `parsePosition` succeeds on it at `st`, or it is a
`summary:` line.  These are exactly the two places guarded by
`if (!subMapping) return false` (cachegrindloader.cpp:1025 and 1059). -/
def costOrSummaryAt (st : LState) (l : List Char) : Bool :=
  match l with
  | [] => false
  | c :: rest =>
    if c ≤ '9' then
      (parsePos st.hasAddrInfo st.hasLineInfo st.currentPos st.currentPos (c :: rest)).ok
    else isSummaryLine (c :: rest)

/-! ## Claim C2 / C3 — the position parser -/

/-- The range-suffix handler always reports success. -/
theorem lineRange_ok_eq (np : PositionSpec) (s : List Char) :
    (lineRange np s).ok = true := by
  unfold lineRange
  split <;> rfl

/-- The line block either succeeds or rejects without having written any
field of `newPos` (all its `return false` statements precede the first
assignment). -/
theorem parseLineBlock_cases (cur np : PositionSpec) : ∀ s,
    (parseLineBlock cur np s).ok = true ∨
      parseLineBlock cur np s = { ok := false, pos := np, rest := s, warned := false }
  | [] => Or.inr rfl
  | c :: cs => by
    simp only [parseLineBlock]
    repeat' split
    all_goals first
      | exact Or.inr rfl
      | (left; simp [apply_ite PPOut.ok, lineRange_ok_eq])

/-- Claim C2 (code bug): with the line column enabled and cursor
`fromLine = 5`, the position line `-10` triggers the negative-line warning
but — because the source executes `diff = currentPos.fromLine < diff;`,
assigning the *boolean* 1 to `diff` — resolves the from-line to
`5 - 1 = 4`, not to the clamped 0 the claim (and the spec's stated intent)
requires.  The final conjunct shows the in-range case `-2` behaving as the
claim says (`5 - 2 = 3`). -/
theorem neg_line_clamp_bug_eval :
    (parsePos false true { fromLine := 5, toLine := 5 } { fromLine := 5, toLine := 5 }
        ("-10".toList)).ok = true ∧
    (parsePos false true { fromLine := 5, toLine := 5 } { fromLine := 5, toLine := 5 }
        ("-10".toList)).warned = true ∧
    (parsePos false true { fromLine := 5, toLine := 5 } { fromLine := 5, toLine := 5 }
        ("-10".toList)).pos.fromLine = 4 ∧
    (parsePos false true { fromLine := 5, toLine := 5 } { fromLine := 5, toLine := 5 }
        ("-2".toList)).pos.fromLine = 3 := by
  decide

/-- Claim C3 (counterexample): with both position columns enabled, the line
`+4` parses its address column (mutating the by-reference cursor's address
fields) and then rejects at the missing line column — the parser returns
false with the cursor already changed, contradicting the claim that
rejection never partially mutates the cursor. -/
theorem parsePosition_partial_mutation_cex :
    (parsePos true true {} {} ("+4".toList)).ok = false ∧
    (parsePos true true {} {} ("+4".toList)).pos ≠ ({} : PositionSpec) ∧
    (parsePos true true {} {} ("+4".toList)).pos.fromAddr = 4 := by
  decide

/-- Claim C3 (amended): when the address column is disabled (`hasAddrInfo =
false`, the default configuration), rejection leaves the by-reference cursor
completely unchanged; with the address column enabled a rejected line may
leave the cursor's address fields updated, as the counterexample shows. -/
theorem parsePosition_rejection_atomic_no_addr (hl : Bool) (cur np0 : PositionSpec)
    (s : List Char) (h : (parsePos false hl cur np0 s).ok = false) :
    (parsePos false hl cur np0 s).pos = np0 := by
  cases hl with
  | true =>
    have e : parsePos false true cur np0 s = parseLineBlock cur np0 s := rfl
    rw [e] at h ⊢
    rcases parseLineBlock_cases cur np0 s with hok | heq
    · rw [hok] at h; exact absurd h (by simp)
    · rw [heq]
  | false =>
    have e : (parsePos false false cur np0 s).ok = true := rfl
    rw [e] at h; exact absurd h (by simp)

/-- Witness for the amended claim C3 at a concrete rejected line. -/
theorem parsePosition_rejection_atomic_no_addr_witness :
    (parsePos false true {} {} ("x".toList)).ok = false ∧
    (parsePos false true {} {} ("x".toList)).pos = ({} : PositionSpec) :=
  ⟨by decide, parsePosition_rejection_atomic_no_addr true {} {} ("x".toList) (by decide)⟩

/-! ## Claim C5 — format detection -/

/-- `findSubL` returns an actual occurrence. -/
theorem findSubL_isOcc (pat : List Char) :
    ∀ s p, findSubL pat s = some p → startsWithL pat (s.drop p) = true := by
  intro s
  induction s with
  | nil =>
    intro p h
    unfold findSubL at h
    split at h
    · rename_i hpre
      cases h
      simpa [startsWithL] using hpre
    · cases h
  | cons c t ih =>
    intro p h
    unfold findSubL at h
    split at h
    · rename_i hpre
      cases h
      simpa [startsWithL] using hpre
    · rcases Option.map_eq_some'.mp h with ⟨q, hq, rfl⟩
      simpa using ih q hq

/-- `findSubL` returns the first occurrence. -/
theorem findSubL_min (pat : List Char) :
    ∀ s p, findSubL pat s = some p → ∀ q, q < p → startsWithL pat (s.drop q) = false := by
  intro s
  induction s with
  | nil =>
    intro p h q hq
    unfold findSubL at h
    split at h
    · cases h; exact absurd hq (by omega)
    · cases h
  | cons c t ih =>
    intro p h q hq
    unfold findSubL at h
    split at h
    · cases h; exact absurd hq (by omega)
    · rename_i hpre
      rcases Option.map_eq_some'.mp h with ⟨r, hr, rfl⟩
      match q with
      | 0 => simpa only [startsWithL, List.drop_zero, Bool.not_eq_true] using hpre
      | q' + 1 =>
        have hq' : q' < r := by omega
        simpa using ih r hr q' hq'

/-- When `findSubL` fails there is no occurrence at all. -/
theorem findSubL_noOcc (pat : List Char) :
    ∀ s, findSubL pat s = none → ∀ q, startsWithL pat (s.drop q) = false := by
  intro s
  induction s with
  | nil =>
    intro h q
    unfold findSubL at h
    split at h
    · cases h
    · rename_i hpre
      simp only [List.drop_nil]
      simpa only [startsWithL, Bool.not_eq_true] using hpre
  | cons c t ih =>
    intro h q
    unfold findSubL at h
    split at h
    · cases h
    · rename_i hpre
      have h2 : findSubL pat t = none := Option.map_eq_none'.mp h
      match q with
      | 0 => simpa only [startsWithL, List.drop_zero, Bool.not_eq_true] using hpre
      | q' + 1 => simpa using ih h2 q'

/-- Claim C5 (counterexample): in `xevents:\nevents: Ir` the first occurrence
of `events:` is mid-line, so `canLoadTrace` rejects the file even though a
line-initial `events:` follows well inside the 2047-byte window — the
claim's "if and only if", and its parenthetical in particular, demand
acceptance here. -/
theorem canLoadTrace_first_occurrence_cex :
    canLoadTrace ("xevents:\nevents: Ir".toList) = false ∧
    hasLineInitialEvents ("xevents:\nevents: Ir".toList) = true := by
  decide

/-- Claim C5 (amended): the detector accepts exactly when the *first*
occurrence of `events:` within the first 2047 bytes is at beginning-of-file
or immediately preceded by a newline. -/
theorem canLoadTrace_iff_first_occurrence (content : List Char) :
    canLoadTrace content = true ↔
      (∃ p, startsWithL evStrL ((content.take 2047).drop p) = true ∧
        (∀ q, q < p → startsWithL evStrL ((content.take 2047).drop q) = false) ∧
        (p = 0 ∨ (content.take 2047).get? (p - 1) = some '\n')) := by
  simp only [canLoadTrace]
  cases h : findSubL evStrL (content.take 2047) with
  | none =>
    simp only [h, Bool.false_eq_true, false_iff]
    rintro ⟨p, hp, -, -⟩
    rw [findSubL_noOcc evStrL _ h p] at hp
    cases hp
  | some p =>
    have hocc := findSubL_isOcc evStrL _ _ h
    have hmin := findSubL_min evStrL _ _ h
    cases p with
    | zero =>
      simp only [h, true_iff]
      exact ⟨0, hocc, fun q hq => absurd hq (by omega), Or.inl rfl⟩
    | succ p' =>
      simp only [h, decide_eq_true_eq]
      constructor
      · intro hnl
        refine ⟨p' + 1, hocc, hmin, Or.inr ?_⟩
        simpa using hnl
      · rintro ⟨q, hq, hqmin, hcase⟩
        have hqe : q = p' + 1 := by
          rcases Nat.lt_trichotomy q (p' + 1) with hlt | he | hgt
          · rw [hmin q hlt] at hq; cases hq
          · exact he
          · rw [hqmin (p' + 1) hgt] at hocc; cases hocc
        subst hqe
        rcases hcase with h0 | hnl
        · cases h0
        · simpa using hnl

/-! ## Frame lemmas for the loader's state transformers -/

/-- `ensureFunctionL` changes only the function cursor pair. -/
theorem ensureFunctionL_frame (st : LState) :
    ∃ a b, ensureFunctionL st = { st with currentFunction := a, currentPartFunction := b } := by
  unfold ensureFunctionL
  split
  · exact ⟨st.currentFunction, st.currentPartFunction, rfl⟩
  · exact ⟨some dummyFun, some dummyFun, rfl⟩

/-- `fetchInstr` changes only the instruction cursor pair. -/
theorem fetchInstr_frame (fn : FuncE) (st : LState) :
    ∃ a b, fetchInstr fn st = { st with currentInstr := a, currentPartInstr := b } := by
  unfold fetchInstr
  repeat' split
  all_goals
    first
    | exact ⟨st.currentInstr, st.currentPartInstr, rfl⟩
    | exact ⟨some (fn, st.currentPos.fromAddr), some (fn, st.currentPos.fromAddr), rfl⟩

/-- `fetchLine` changes only the line cursor pair. -/
theorem fetchLine_frame (fn : FuncE) (st : LState) :
    ∃ a b, fetchLine fn st = { st with currentLine := a, currentPartLine := b } := by
  unfold fetchLine
  repeat' split
  all_goals
    first
    | exact ⟨st.currentLine, st.currentPartLine, rfl⟩
    | exact ⟨some (fn, st.currentFile, st.currentPos.fromLine),
             some (fn, st.currentFile, st.currentPos.fromLine), rfl⟩

/-- The ensure-and-fetch pipeline at the head of the cost-line processor
changes only the function, instruction and line cursors. -/
theorem costFetch_frame (st : LState) :
    ∃ a b c d e f,
      fetchLine ((ensureFunctionL st).currentFunction.getD dummyFun)
          (fetchInstr ((ensureFunctionL st).currentFunction.getD dummyFun)
            (ensureFunctionL st)) =
        { st with currentFunction := a, currentPartFunction := b,
                  currentInstr := c, currentPartInstr := d,
                  currentLine := e, currentPartLine := f } := by
  obtain ⟨a, b, e1⟩ := ensureFunctionL_frame st
  rw [e1]
  obtain ⟨c, d, e2⟩ := fetchInstr_frame
    (({ st with currentFunction := a, currentPartFunction := b } :
        LState).currentFunction.getD dummyFun)
    ({ st with currentFunction := a, currentPartFunction := b } : LState)
  rw [e2]
  obtain ⟨e, f, e3⟩ := fetchLine_frame
    (({ st with currentFunction := a, currentPartFunction := b } :
        LState).currentFunction.getD dummyFun)
    ({ { st with currentFunction := a, currentPartFunction := b } with
        currentInstr := c, currentPartInstr := d } : LState)
  rw [e3]
  exact ⟨a, b, c, d, e, f, rfl⟩

/-- `setFunctionL` changes only the function dictionary, the
object/file/function cursors and the function-source/line cursors. -/
theorem setFunctionL_frame (name : List Char) (st : LState) :
    ∃ v o po fl pfl fn pfn,
      setFunctionL name st =
        { st with funcVec := v,
                  currentObject := o, currentPartObject := po,
                  currentFile := fl, currentPartFile := pfl,
                  currentFunction := fn, currentPartFunction := pfn,
                  currentFunctionSource := none,
                  currentLine := none, currentPartLine := none } := by
  unfold setFunctionL ensureObjectL ensureFileL
  repeat' split
  all_goals exact ⟨_, _, _, _, _, _, _, rfl⟩

/-- `setCalledFunctionL` changes only the function dictionary and the called
object/file/function cursors. -/
theorem setCalledFunctionL_frame (name : List Char) (st : LState) :
    ∃ v a b c d e f,
      setCalledFunctionL name st =
        { st with funcVec := v,
                  currentCalledObject := a, currentCalledPartObject := b,
                  currentCalledFile := c, currentCalledPartFile := d,
                  currentCalledFunction := e, currentCalledPartFunction := f } := by
  unfold setCalledFunctionL
  dsimp only
  repeat' split
  all_goals exact ⟨_, _, _, _, _, _, _, rfl⟩

/-! ## Claim C6 — cursor clearing by `fl=`/`fi=`/`fe=` and `fn=` -/

/-- A loader state with a live instruction and line cursor, for the C6
counterexample. -/
def cex6State : LState :=
  { initState with currentInstr := some (dummyFun, 4096),
                   currentPartInstr := some (dummyFun, 4096),
                   currentLine := some (dummyFun, none, 3),
                   currentPartLine := some (dummyFun, none, 3) }

/-- Claim C6 (counterexample): `setFile` (the `fl=`/`fi=`/`fe=` handler)
clears the line cursor but leaves the instruction cursor untouched — the
claim says both are cleared.  `setFunction` (`fn=`) likewise leaves the
instruction cursor untouched. -/
theorem setFile_keeps_instr_cex :
    (setFileL ("b.c".toList) cex6State).currentLine = none ∧
    (setFileL ("b.c".toList) cex6State).currentInstr = some (dummyFun, 4096) ∧
    ¬((setFileL ("b.c".toList) cex6State).currentInstr = none) ∧
    (setFunctionL ("f".toList) cex6State).currentInstr = some (dummyFun, 4096) ∧
    ¬((setFunctionL ("f".toList) cex6State).currentInstr = none) := by
  decide

/-- Claim C6 (amended): `fl=`/`fi=`/`fe=` clears the current line cursor and
leaves the current instruction cursor unchanged; `fn=` clears the
function-source and current line cursors, leaves the current instruction
cursor unchanged, and leaves the current object and file cursors unchanged
whenever they are already set (when unset, `fn=` fills them with the `???`
dummies). -/
theorem file_function_line_clearing (name : List Char) (st : LState) :
    ((setFileL name st).currentLine = none ∧
     (setFileL name st).currentPartLine = none ∧
     (setFileL name st).currentInstr = st.currentInstr ∧
     (setFileL name st).currentPartInstr = st.currentPartInstr) ∧
    ((setFunctionL name st).currentFunctionSource = none ∧
     (setFunctionL name st).currentLine = none ∧
     (setFunctionL name st).currentPartLine = none ∧
     (setFunctionL name st).currentInstr = st.currentInstr ∧
     (setFunctionL name st).currentPartInstr = st.currentPartInstr) ∧
    (st.currentObject.isSome = true →
      (setFunctionL name st).currentObject = st.currentObject) ∧
    (st.currentFile.isSome = true →
      (setFunctionL name st).currentFile = st.currentFile) := by
  refine ⟨⟨?_, ?_, ?_, ?_⟩, ⟨?_, ?_, ?_, ?_, ?_⟩, ?_, ?_⟩
  · simp [setFileL]
  · simp [setFileL]
  · simp [setFileL]
  · simp [setFileL]
  · unfold setFunctionL ensureObjectL ensureFileL
    repeat' split
    all_goals simp
  · unfold setFunctionL ensureObjectL ensureFileL
    repeat' split
    all_goals simp
  · unfold setFunctionL ensureObjectL ensureFileL
    repeat' split
    all_goals simp
  · unfold setFunctionL ensureObjectL ensureFileL
    repeat' split
    all_goals simp
  · unfold setFunctionL ensureObjectL ensureFileL
    repeat' split
    all_goals simp
  · intro ho
    unfold setFunctionL ensureObjectL ensureFileL
    repeat' split
    all_goals simp_all
  · intro hf
    unfold setFunctionL ensureObjectL ensureFileL
    repeat' split
    all_goals simp_all

/-- Witness for the amended claim C6 at a concrete state with set cursors. -/
theorem file_function_line_clearing_witness :
    cex6State.currentObject.isSome = false ∧
    (setFileL ("b.c".toList) cex6State).currentLine = none ∧
    (setFileL ("b.c".toList) cex6State).currentInstr = cex6State.currentInstr :=
  ⟨by decide,
   (file_function_line_clearing ("b.c".toList) cex6State).1.1,
   (file_function_line_clearing ("b.c".toList) cex6State).1.2.2.1⟩

/-! ## Claim C7 — the call-target cursor after a CallCost line -/

/-- A loader state armed for a CallCost record, with the full call-target
cursor populated, for the C7 counterexample. -/
def cex7State : LState :=
  { initState with subMapping := some [("Ir".toList)],
                   nextLineType := LType.CallCost,
                   currentFunction := some (FuncE.mk ("f".toList) (some ("a.c".toList)) none),
                   currentPartFunction := some (FuncE.mk ("f".toList) (some ("a.c".toList)) none),
                   currentCalledFunction := some (FuncE.mk ("g".toList) (some ("a.c".toList)) none),
                   currentCalledPartFunction := some (FuncE.mk ("g".toList) (some ("a.c".toList)) none),
                   currentCalledObject := some ("libB".toList),
                   currentCalledPartObject := some ("libB".toList),
                   currentCalledFile := some ("b.c".toList),
                   currentCalledPartFile := some ("b.c".toList),
                   currentCallCount := 3 }

/-- Claim C7 (counterexample): after the cost line of an armed CallCost
record is processed, the called object, called file and call count are
cleared and the record type reverts to SelfCost — but the called *function*
cursor survives, so the "entire call target cursor" is not cleared. -/
theorem callcost_keeps_called_function_cex :
    (processCost cex7State ("5".toList)).1 = true ∧
    (processCost cex7State ("5".toList)).2.currentCalledObject = none ∧
    (processCost cex7State ("5".toList)).2.currentCalledFile = none ∧
    (processCost cex7State ("5".toList)).2.currentCallCount = 0 ∧
    (processCost cex7State ("5".toList)).2.nextLineType = LType.SelfCost ∧
    (processCost cex7State ("5".toList)).2.currentCalledFunction =
      some (FuncE.mk ("g".toList) (some ("a.c".toList)) none) ∧
    ¬((processCost cex7State ("5".toList)).2.currentCalledFunction = none) := by
  decide

/-- Claim C7 (amended): processing the cost line of an armed CallCost record
clears the called object, the called file (with their part projections) and
the pending call count, and reverts the pending record type to SelfCost;
the called function cursor (and its part projection) is left unchanged. -/
theorem callcost_clears_call_cursor (st : LState) (rest : List Char)
    (hc : st.nextLineType = LType.CallCost)
    (hs : (processCost st rest).1 = true) :
    (processCost st rest).2.currentCalledObject = none ∧
    (processCost st rest).2.currentCalledPartObject = none ∧
    (processCost st rest).2.currentCalledFile = none ∧
    (processCost st rest).2.currentCalledPartFile = none ∧
    (processCost st rest).2.currentCallCount = 0 ∧
    (processCost st rest).2.nextLineType = LType.SelfCost ∧
    (processCost st rest).2.currentCalledFunction = st.currentCalledFunction ∧
    (processCost st rest).2.currentCalledPartFunction = st.currentCalledPartFunction := by
  cases hm : st.subMapping with
  | none =>
    rw [show processCost st rest = (false, st) by rw [processCost, hm]] at hs
    cases hs
  | some m =>
    obtain ⟨a, b, c, d, e, f, hfr⟩ := costFetch_frame st
    have hp : processCost st rest =
        processCost st rest := rfl
    rw [processCost, hm] at hp ⊢
    dsimp only at hp ⊢
    rw [hfr]
    simp only [hc]
    constructor
    · simp [apply_ite LState.currentCalledObject]
    constructor
    · simp [apply_ite LState.currentCalledPartObject]
    constructor
    · simp [apply_ite LState.currentCalledFile]
    constructor
    · simp [apply_ite LState.currentCalledPartFile]
    constructor
    · simp [apply_ite LState.currentCallCount]
    constructor
    · simp [apply_ite LState.nextLineType]
    constructor
    · simp [apply_ite LState.currentCalledFunction]
    · simp [apply_ite LState.currentCalledPartFunction]

/-- Witness for the amended claim C7 at the concrete armed state. -/
theorem callcost_clears_call_cursor_witness :
    (processCost cex7State ("5".toList)).2.currentCalledObject = none ∧
    (processCost cex7State ("5".toList)).2.currentCalledFile = none ∧
    (processCost cex7State ("5".toList)).2.currentCallCount = 0 ∧
    (processCost cex7State ("5".toList)).2.nextLineType = LType.SelfCost ∧
    (processCost cex7State ("5".toList)).2.currentCalledFunction =
      cex7State.currentCalledFunction := by
  have h := callcost_clears_call_cursor cex7State ("5".toList) (by decide) (by decide)
  exact ⟨h.1, h.2.2.1, h.2.2.2.2.1, h.2.2.2.2.2.1, h.2.2.2.2.2.2.1⟩

/-! ## Preservation lemmas for the loop invariants -/

/-- Distribute `Prod.snd` over an `if` (projection helper). -/
theorem ite_snd_eq (P : Prop) [Decidable P] (a b : Bool × LState) :
    (if P then a else b).2 = if P then a.2 else b.2 :=
  apply_ite Prod.snd P a b

/-- Distribute `Prod.fst` over an `if` (projection helper). -/
theorem ite_fst_eq (P : Prop) [Decidable P] (a b : Bool × LState) :
    (if P then a else b).1 = if P then a.1 else b.1 :=
  apply_ite Prod.fst P a b

/-- The cost-line processor never touches the event schema, the position
configuration, the totals flag or the ghost log. -/
theorem processCost_meta (st : LState) (rest : List Char) :
    (processCost st rest).2.totalsSet = st.totalsSet ∧
    (processCost st rest).2.subMapping = st.subMapping ∧
    (processCost st rest).2.hasLineInfo = st.hasLineInfo ∧
    (processCost st rest).2.hasAddrInfo = st.hasAddrInfo ∧
    (processCost st rest).2.posParses = st.posParses := by
  cases hm : st.subMapping with
  | none =>
    rw [processCost, hm]
    exact ⟨rfl, hm, rfl, rfl, rfl⟩
  | some m =>
    obtain ⟨a, b, c, d, e, f, hfr⟩ := costFetch_frame st
    rw [processCost, hm]
    dsimp only
    rw [hfr]
    cases hn : st.nextLineType <;>
      simp_all [jumpFinish, apply_ite LState.totalsSet, apply_ite LState.subMapping,
        apply_ite LState.hasLineInfo, apply_ite LState.hasAddrInfo,
        apply_ite LState.posParses]

/-- The fields the header handlers other than `events:` and `positions:`
never touch: the totals flag, the ghost log and the accumulated costs. -/
def MetaInv (st st2 : LState) : Prop :=
  st2.totalsSet = st.totalsSet ∧ st2.posParses = st.posParses ∧
  st2.selfCosts = st.selfCosts ∧ st2.callCosts = st.callCosts

theorem handleF_meta (st : LState) (rest : List Char) :
    MetaInv st (handleF st rest).2 ∧
    (handleF st rest).2.subMapping = st.subMapping ∧
    (handleF st rest).2.hasLineInfo = st.hasLineInfo ∧
    (handleF st rest).2.hasAddrInfo = st.hasAddrInfo ∧
    (handleF st rest).1 = true := by
  unfold handleF MetaInv
  repeat' split
  · simp [setFileL]
  · obtain ⟨v, o, po, fl, pfl, fn, pfn, hf⟩ := setFunctionL_frame (rest.drop 2) st
    rw [hf]
    simp
  · simp

theorem handleC_meta (st : LState) (rest : List Char) :
    MetaInv st (handleC st rest).2 ∧
    (handleC st rest).2.subMapping = st.subMapping ∧
    (handleC st rest).2.hasLineInfo = st.hasLineInfo ∧
    (handleC st rest).2.hasAddrInfo = st.hasAddrInfo ∧
    (handleC st rest).1 = true := by
  unfold handleC MetaInv
  dsimp only
  repeat' split
  all_goals first
    | (obtain ⟨v, a2, b2, c2, d2, e2, f2, hf⟩ := setCalledFunctionL_frame (rest.drop 3) st
       rw [hf]
       simp)
    | simp [setCalledObjectL, setCalledFileL]

theorem handleJ_meta (st : LState) (rest : List Char) :
    MetaInv st (handleJ st rest).2 ∧
    (handleJ st rest).2.subMapping = st.subMapping ∧
    (handleJ st rest).2.hasLineInfo = st.hasLineInfo ∧
    (handleJ st rest).2.hasAddrInfo = st.hasAddrInfo ∧
    (handleJ st rest).1 = true := by
  unfold handleJ MetaInv
  dsimp only
  repeat' split
  all_goals simp [ite_snd_eq, ite_fst_eq, apply_ite LState.totalsSet,
    apply_ite LState.posParses, apply_ite LState.selfCosts, apply_ite LState.callCosts,
    apply_ite LState.subMapping, apply_ite LState.hasLineInfo, apply_ite LState.hasAddrInfo]

theorem handleO_meta (st : LState) (rest : List Char) :
    MetaInv st (handleO st rest).2 ∧
    (handleO st rest).2.subMapping = st.subMapping ∧
    (handleO st rest).2.hasLineInfo = st.hasLineInfo ∧
    (handleO st rest).2.hasAddrInfo = st.hasAddrInfo ∧
    (handleO st rest).1 = true := by
  unfold handleO MetaInv
  repeat' split
  · simp [setObjectL]
  · simp

theorem handleT_meta (st : LState) (rest : List Char) :
    MetaInv st (handleT st rest).2 ∧
    (handleT st rest).2.subMapping = st.subMapping ∧
    (handleT st rest).2.hasLineInfo = st.hasLineInfo ∧
    (handleT st rest).2.hasAddrInfo = st.hasAddrInfo ∧
    (handleT st rest).1 = true := by
  unfold handleT MetaInv
  repeat' split
  all_goals simp

theorem handleD_meta (st : LState) (rest : List Char) :
    MetaInv st (handleD st rest).2 ∧
    (handleD st rest).2.subMapping = st.subMapping ∧
    (handleD st rest).2.hasLineInfo = st.hasLineInfo ∧
    (handleD st rest).2.hasAddrInfo = st.hasAddrInfo ∧
    (handleD st rest).1 = true := by
  unfold handleD MetaInv
  dsimp only
  repeat' split
  all_goals simp [ite_snd_eq, ite_fst_eq, apply_ite LState.totalsSet,
    apply_ite LState.posParses, apply_ite LState.selfCosts, apply_ite LState.callCosts,
    apply_ite LState.subMapping, apply_ite LState.hasLineInfo, apply_ite LState.hasAddrInfo]

theorem handleE_meta (st : LState) (rest : List Char)
    (h : startsWithL ("vents:".toList) rest = false) :
    MetaInv st (handleE st rest).2 ∧
    (handleE st rest).2.subMapping = st.subMapping ∧
    (handleE st rest).2.hasLineInfo = st.hasLineInfo ∧
    (handleE st rest).2.hasAddrInfo = st.hasAddrInfo ∧
    (handleE st rest).1 = true := by
  unfold handleE MetaInv
  dsimp only
  repeat' split
  all_goals simp_all [ite_snd_eq, ite_fst_eq, apply_ite LState.totalsSet,
    apply_ite LState.posParses, apply_ite LState.selfCosts, apply_ite LState.callCosts,
    apply_ite LState.subMapping, apply_ite LState.hasLineInfo, apply_ite LState.hasAddrInfo]

theorem handleE_meta_events (st : LState) (rest : List Char) :
    MetaInv st (handleE st rest).2 ∧
    (handleE st rest).2.hasLineInfo = st.hasLineInfo ∧
    (handleE st rest).2.hasAddrInfo = st.hasAddrInfo ∧
    (handleE st rest).1 = true := by
  unfold handleE MetaInv
  dsimp only
  repeat' split
  all_goals simp_all [ite_snd_eq, ite_fst_eq, apply_ite LState.totalsSet,
    apply_ite LState.posParses, apply_ite LState.selfCosts, apply_ite LState.callCosts,
    apply_ite LState.hasLineInfo, apply_ite LState.hasAddrInfo]

theorem handleP_meta (st : LState) (rest : List Char)
    (h : startsWithL ("ositions:".toList) rest = false) :
    MetaInv st (handleP st rest).2 ∧
    (handleP st rest).2.subMapping = st.subMapping ∧
    (handleP st rest).2.hasLineInfo = st.hasLineInfo ∧
    (handleP st rest).2.hasAddrInfo = st.hasAddrInfo ∧
    (handleP st rest).1 = true := by
  unfold handleP MetaInv
  dsimp only
  repeat' split
  all_goals simp_all

theorem handleP_meta_positions (st : LState) (rest : List Char) :
    MetaInv st (handleP st rest).2 ∧
    (handleP st rest).2.subMapping = st.subMapping ∧
    (handleP st rest).1 = true := by
  unfold handleP MetaInv
  dsimp only
  repeat' split
  all_goals simp_all

theorem handleV_meta (st : LState) (rest : List Char) :
    MetaInv st (handleV st rest).2 ∧
    (handleV st rest).2.subMapping = st.subMapping ∧
    (handleV st rest).2.hasLineInfo = st.hasLineInfo ∧
    (handleV st rest).2.hasAddrInfo = st.hasAddrInfo ∧
    (handleV st rest).1 = true := by
  unfold handleV MetaInv
  repeat' split
  all_goals simp

theorem handleS_meta (st : LState) (rest : List Char) :
    MetaInv st (handleS st rest).2 ∧
    (handleS st rest).2.subMapping = st.subMapping ∧
    (handleS st rest).2.hasLineInfo = st.hasLineInfo ∧
    (handleS st rest).2.hasAddrInfo = st.hasAddrInfo := by
  unfold handleS MetaInv
  dsimp only
  repeat' split
  all_goals simp

theorem handleR_meta (st : LState) (rest : List Char) :
    MetaInv st (handleR st rest).2 ∧
    (handleR st rest).2.subMapping = st.subMapping ∧
    (handleR st rest).2.hasLineInfo = st.hasLineInfo ∧
    (handleR st rest).2.hasAddrInfo = st.hasAddrInfo ∧
    (handleR st rest).1 = true := by
  unfold handleR MetaInv
  repeat' split
  all_goals simp

/-- Case elimination for the dispatch switch: to prove a property of
`headerDispatch st c rest` it suffices to prove it of every handler and of
the default branch. -/
theorem hd_elim (st : LState) (c : Char) (rest : List Char)
    (P : Bool × LState → Prop)
    (hF : P (handleF st rest)) (hC : P (handleC st rest))
    (hJ : P (handleJ st rest)) (hO : P (handleO st rest))
    (hT : P (handleT st rest)) (hD : P (handleD st rest))
    (hE : c = 'e' → P (handleE st rest))
    (hP2 : c = 'p' → P (handleP st rest))
    (hV : P (handleV st rest)) (hS : P (handleS st rest))
    (hR : P (handleR st rest)) (hdef : P (true, st)) :
    P (headerDispatch st c rest) := by
  rw [headerDispatch]
  by_cases h1 : c = 'f'
  · rw [if_pos h1]; exact hF
  rw [if_neg h1]
  by_cases h2 : c = 'c'
  · rw [if_pos h2]; exact hC
  rw [if_neg h2]
  by_cases h3 : c = 'j'
  · rw [if_pos h3]; exact hJ
  rw [if_neg h3]
  by_cases h4 : c = 'o'
  · rw [if_pos h4]; exact hO
  rw [if_neg h4]
  by_cases h5 : c = 't'
  · rw [if_pos h5]; exact hT
  rw [if_neg h5]
  by_cases h6 : c = 'd'
  · rw [if_pos h6]; exact hD
  rw [if_neg h6]
  by_cases h7 : c = 'e'
  · rw [if_pos h7]; exact hE h7
  rw [if_neg h7]
  by_cases h8 : c = 'p'
  · rw [if_pos h8]; exact hP2 h8
  rw [if_neg h8]
  by_cases h9 : c = 'v'
  · rw [if_pos h9]; exact hV
  rw [if_neg h9]
  by_cases h10 : c = 's'
  · rw [if_pos h10]; exact hS
  rw [if_neg h10]
  by_cases h11 : c = 'r'
  · rw [if_pos h11]; exact hR
  rw [if_neg h11]
  exact hdef

/-- The header dispatcher preserves the totals flag, the ghost log and the
accumulated costs. -/
theorem hd_meta (st : LState) (c : Char) (rest : List Char) :
    MetaInv st (headerDispatch st c rest).2 :=
  hd_elim st c rest (fun r => MetaInv st r.2)
    (handleF_meta st rest).1 (handleC_meta st rest).1 (handleJ_meta st rest).1
    (handleO_meta st rest).1 (handleT_meta st rest).1 (handleD_meta st rest).1
    (fun _ => (handleE_meta_events st rest).1)
    (fun _ => (handleP_meta_positions st rest).1)
    (handleV_meta st rest).1 (handleS_meta st rest).1 (handleR_meta st rest).1
    ⟨rfl, rfl, rfl, rfl⟩

/-- The header dispatcher changes the event schema only on an `events:`
line. -/
theorem hd_subMapping (st : LState) (c : Char) (rest : List Char)
    (h : isEventsLine (c :: rest) = false) :
    ((headerDispatch st c rest).2).subMapping = st.subMapping :=
  hd_elim st c rest (fun r => r.2.subMapping = st.subMapping)
    (handleF_meta st rest).2.1 (handleC_meta st rest).2.1 (handleJ_meta st rest).2.1
    (handleO_meta st rest).2.1 (handleT_meta st rest).2.1 (handleD_meta st rest).2.1
    (fun hc => by
      subst hc
      have hsw : startsWithL ("vents:".toList) rest = false := by
        simpa [isEventsLine] using h
      exact (handleE_meta st rest hsw).2.1)
    (fun _ => (handleP_meta_positions st rest).2.1)
    (handleV_meta st rest).2.1 (handleS_meta st rest).2.1 (handleR_meta st rest).2.1
    rfl

/-- The header dispatcher changes the position configuration only on a
`positions:` line. -/
theorem hd_flags (st : LState) (c : Char) (rest : List Char)
    (h : isPositionsLine (c :: rest) = false) :
    ((headerDispatch st c rest).2).hasLineInfo = st.hasLineInfo ∧
    ((headerDispatch st c rest).2).hasAddrInfo = st.hasAddrInfo :=
  hd_elim st c rest
    (fun r => r.2.hasLineInfo = st.hasLineInfo ∧ r.2.hasAddrInfo = st.hasAddrInfo)
    ⟨(handleF_meta st rest).2.2.1, (handleF_meta st rest).2.2.2.1⟩
    ⟨(handleC_meta st rest).2.2.1, (handleC_meta st rest).2.2.2.1⟩
    ⟨(handleJ_meta st rest).2.2.1, (handleJ_meta st rest).2.2.2.1⟩
    ⟨(handleO_meta st rest).2.2.1, (handleO_meta st rest).2.2.2.1⟩
    ⟨(handleT_meta st rest).2.2.1, (handleT_meta st rest).2.2.2.1⟩
    ⟨(handleD_meta st rest).2.2.1, (handleD_meta st rest).2.2.2.1⟩
    (fun _ => ⟨(handleE_meta_events st rest).2.1, (handleE_meta_events st rest).2.2.1⟩)
    (fun hc => by
      subst hc
      have hsw : startsWithL ("ositions:".toList) rest = false := by
        simpa [isPositionsLine] using h
      exact ⟨(handleP_meta st rest hsw).2.2.1, (handleP_meta st rest hsw).2.2.2.1⟩)
    ⟨(handleV_meta st rest).2.2.1, (handleV_meta st rest).2.2.2.1⟩
    ⟨(handleS_meta st rest).2.2.1, (handleS_meta st rest).2.2.2⟩
    ⟨(handleR_meta st rest).2.2.1, (handleR_meta st rest).2.2.2.1⟩
    ⟨rfl, rfl⟩

/-- One loop iteration preserves the totals flag. -/
theorem stepLine_totalsSet (st : LState) (l : List Char) :
    (stepLine st l).2.totalsSet = st.totalsSet := by
  cases l with
  | nil => rfl
  | cons c rest =>
    simp only [stepLine]
    split
    · split
      · exact (processCost_meta _ _).1
      · rfl
    · exact (hd_meta st c rest).1

/-- One loop iteration changes the event schema only on an `events:` line. -/
theorem stepLine_subMapping (st : LState) (l : List Char)
    (h : isEventsLine l = false) :
    (stepLine st l).2.subMapping = st.subMapping := by
  cases l with
  | nil => rfl
  | cons c rest =>
    simp only [stepLine]
    split
    · split
      · exact (processCost_meta _ _).2.1
      · rfl
    · exact hd_subMapping st c rest h

/-- One loop iteration changes the position configuration only on a
`positions:` line. -/
theorem stepLine_flags (st : LState) (l : List Char)
    (h : isPositionsLine l = false) :
    (stepLine st l).2.hasLineInfo = st.hasLineInfo ∧
    (stepLine st l).2.hasAddrInfo = st.hasAddrInfo := by
  cases l with
  | nil => exact ⟨rfl, rfl⟩
  | cons c rest =>
    simp only [stepLine]
    split
    · split
      · exact ⟨(processCost_meta _ _).2.2.1, (processCost_meta _ _).2.2.2.1⟩
      · exact ⟨rfl, rfl⟩
    · exact hd_flags st c rest h

/-- One loop iteration either leaves the ghost log alone or appends the
configuration in force at its cost-line `parsePosition` call. -/
theorem stepLine_posParses (st : LState) (l : List Char) :
    (stepLine st l).2.posParses = st.posParses ∨
    (stepLine st l).2.posParses = st.posParses ++ [(st.hasAddrInfo, st.hasLineInfo)] := by
  cases l with
  | nil => exact Or.inl rfl
  | cons c rest =>
    simp only [stepLine]
    split
    · split
      · exact Or.inr ((processCost_meta _ _).2.2.2.2)
      · exact Or.inr rfl
    · exact Or.inl (hd_meta st c rest).2.1

/-- The epilogue touches only `partInvalid` and `totals`. -/
theorem finalizeL_fields (st : LState) :
    (finalizeL st).totalsSet = st.totalsSet ∧
    (finalizeL st).hasLineInfo = st.hasLineInfo ∧
    (finalizeL st).hasAddrInfo = st.hasAddrInfo ∧
    (finalizeL st).posParses = st.posParses ∧
    (finalizeL st).selfCosts = st.selfCosts := by
  unfold finalizeL
  dsimp only
  split <;> simp

/-- When the load runs to the end with the totals flag still clear, the
final totals are the recomputed sum and the flag stays clear. -/
theorem loadLines_success_totals :
    ∀ ls (st : LState), st.totalsSet = false → (loadLines st ls).1 = true →
      (loadLines st ls).2.totals = sumCosts ((loadLines st ls).2).selfCosts ∧
      (loadLines st ls).2.totalsSet = false := by
  intro ls
  induction ls with
  | nil =>
    intro st h _
    constructor
    · show (finalizeL st).totals = sumCosts (finalizeL st).selfCosts
      simp [finalizeL, h]
    · show (finalizeL st).totalsSet = false
      simp [finalizeL, h]
  | cons l ls ih =>
    intro st h hs
    rw [loadLines] at hs ⊢
    cases hr : (stepLine st l).1 with
    | false =>
      rw [hr] at hs
      simp at hs
      rw [hr] at hs
      cases hs
    | true =>
      simp only [hr, if_true] at hs ⊢
      refine ih _ ?_ hs
      rw [stepLine_totalsSet]
      exact h

/-- The totals flag starts clear and no line handler sets it. -/
theorem runPre_subMapping :
    ∀ ls (st : LState), st.subMapping = none → (∀ l ∈ ls, isEventsLine l = false) →
      ((runPre st ls).2).subMapping = none := by
  intro ls
  induction ls with
  | nil => intro st h _; exact h
  | cons l ls ih =>
    intro st h hev
    rw [runPre]
    cases hr : (stepLine st l).1 with
    | false =>
      simp only [hr, Bool.false_eq_true, if_false]
      rw [stepLine_subMapping st l (hev l (by simp))]
      exact h
    | true =>
      simp only [hr, if_true]
      refine ih _ ?_ (fun l2 hl2 => hev l2 (by simp [hl2]))
      rw [stepLine_subMapping st l (hev l (by simp))]
      exact h

/-- Splitting a run at a successful prefix. -/
theorem runPre_append :
    ∀ pre (st : LState) rest, (runPre st pre).1 = true →
      loadLines st (pre ++ rest) = loadLines ((runPre st pre).2) rest := by
  intro pre
  induction pre with
  | nil => intro st rest _; rfl
  | cons l ls ih =>
    intro st rest h
    rw [runPre] at h ⊢
    rw [List.cons_append, loadLines]
    cases hr : (stepLine st l).1 with
    | false =>
      rw [hr] at h
      simp at h
      rw [hr] at h
      cases h
    | true =>
      simp only [hr, if_true] at h ⊢
      exact ih _ rest h

/-- The cost-line processor aborts immediately when no event schema is
set. -/
theorem processCost_none (st : LState) (rest : List Char)
    (h : st.subMapping = none) : processCost st rest = (false, st) := by
  rw [processCost, h]

/-- A cost or `summary:` line reached with no event schema aborts the load
without attributing any cost. -/
theorem stepLine_abort (st : LState) (l : List Char)
    (hsub : st.subMapping = none) (hcs : costOrSummaryAt st l = true) :
    (stepLine st l).1 = false ∧
    (stepLine st l).2.selfCosts = st.selfCosts ∧
    (stepLine st l).2.callCosts = st.callCosts ∧
    (stepLine st l).2.totals = st.totals := by
  cases l with
  | nil => simp [costOrSummaryAt] at hcs
  | cons c rest =>
    simp only [stepLine]
    simp only [costOrSummaryAt] at hcs
    by_cases hc : c ≤ '9'
    · rw [if_pos hc] at hcs ⊢
      rw [if_pos hcs, hsub]
      exact ⟨rfl, rfl, rfl, rfl⟩
    · rw [if_neg hc] at hcs ⊢
      simp only [isSummaryLine, Bool.and_eq_true, decide_eq_true_eq] at hcs
      obtain ⟨hc1, hc2⟩ := hcs
      subst hc1
      have hd : headerDispatch st 's' rest = handleS st rest := by
        rw [headerDispatch]
        simp
      rw [hd, handleS, if_pos hc2, hsub]
      exact ⟨rfl, rfl, rfl, rfl⟩

/-! ## Claim C1 — cost or `summary:` before `events:` aborts the load -/

/-- Claim C1: in any input where, after a successfully processed prefix
containing no `events:` line, a line is reached that the loader classifies
as a cost line (digit start and successful position parse at the current
state) or as a `summary:` line, the load returns failure and no cost is
attributed for that line: the accumulated self and call costs at the
returned state are exactly those of the prefix. -/
theorem cost_before_events_aborts (pre post : List (List Char)) (l : List Char)
    (hok : (runPre initState pre).1 = true)
    (hev : ∀ l2 ∈ pre, isEventsLine l2 = false)
    (hcs : costOrSummaryAt ((runPre initState pre).2) l = true) :
    (loadTraceLn (pre ++ l :: post)).1 = false ∧
    (loadTraceLn (pre ++ l :: post)).2.selfCosts = ((runPre initState pre).2).selfCosts ∧
    (loadTraceLn (pre ++ l :: post)).2.callCosts = ((runPre initState pre).2).callCosts := by
  have hsub : ((runPre initState pre).2).subMapping = none :=
    runPre_subMapping pre initState rfl hev
  have hstep := stepLine_abort ((runPre initState pre).2) l hsub hcs
  have happ := runPre_append pre initState (l :: post) hok
  rw [loadTraceLn, happ, loadLines]
  rw [hstep.1]
  simp only [Bool.false_eq_true, if_false]
  exact ⟨hstep.1, hstep.2.1, hstep.2.2.1⟩

/-- Witness for claim C1: the file `fl=a.c` / `10 100` / `events: Ir`
reaches the cost line `10 100` before any `events:` line and the load
fails with no self cost recorded. -/
theorem cost_before_events_aborts_witness :
    (loadTraceLn [("fl=a.c".toList), ("10 100".toList), ("events: Ir".toList)]).1 = false ∧
    (loadTraceLn [("fl=a.c".toList), ("10 100".toList), ("events: Ir".toList)]).2.selfCosts =
      [] := by
  have h := cost_before_events_aborts [("fl=a.c".toList)] [("events: Ir".toList)]
    ("10 100".toList) (by decide) (by decide) (by decide)
  exact ⟨h.1, h.2.1.trans (by decide)⟩

/-! ## Claims C8 and C10 — part totals at end of load -/

/-- Claim C8: for every successfully loaded file containing no `summary:`
line, the totals vector of the final state is the pointwise sum of the
per-entity part costs accumulated during the load. -/
theorem totals_sum_without_summary (lines : List (List Char))
    (_hns : ∀ l ∈ lines, isSummaryLine l = false)
    (hs : (loadTraceLn lines).1 = true) :
    (loadTraceLn lines).2.totals = sumCosts ((loadTraceLn lines).2).selfCosts :=
  (loadLines_success_totals lines initState rfl hs).1

/-- Witness for claim C8 on a one-function input. -/
theorem totals_sum_without_summary_witness :
    (loadTraceLn [("events: Ir".toList), ("fl=a.c".toList), ("fn=f".toList),
        ("10 100".toList)]).2.totals =
      sumCosts ((loadTraceLn [("events: Ir".toList), ("fl=a.c".toList), ("fn=f".toList),
        ("10 100".toList)]).2).selfCosts ∧
    (loadTraceLn [("events: Ir".toList), ("fl=a.c".toList), ("fn=f".toList),
        ("10 100".toList)]).2.totals = [100] := by
  refine ⟨totals_sum_without_summary _ (by decide) (by decide), ?_⟩
  decide

/-- Claim C10: on every successful load the `totalsSet` flag — initialised
false and set by no line handler — is still false at the end, so the totals
vector is unconditionally recomputed as the sum of the accumulated costs,
discarding whatever an explicit `summary:` line had stored. -/
theorem totals_always_recomputed (lines : List (List Char))
    (hs : (loadTraceLn lines).1 = true) :
    (loadTraceLn lines).2.totalsSet = false ∧
    (loadTraceLn lines).2.totals = sumCosts ((loadTraceLn lines).2).selfCosts := by
  have h := loadLines_success_totals lines initState rfl hs
  exact ⟨h.2, h.1⟩

/-- Witness for claim C10: a file whose `summary:` line carries 999 still
ends with totals [100], the recomputed sum — the summary value is
discarded. -/
theorem totals_always_recomputed_witness :
    (loadTraceLn [("events: Ir".toList), ("fl=a.c".toList), ("fn=f".toList),
        ("10 100".toList), ("summary: 999".toList)]).2.totalsSet = false ∧
    (loadTraceLn [("events: Ir".toList), ("fl=a.c".toList), ("fn=f".toList),
        ("10 100".toList), ("summary: 999".toList)]).2.totals = [100] := by
  have h := totals_always_recomputed [("events: Ir".toList), ("fl=a.c".toList),
    ("fn=f".toList), ("10 100".toList), ("summary: 999".toList)] (by decide)
  exact ⟨h.1, h.2.trans (by decide)⟩

/-! ## Claim C9 — the default position configuration -/

/-- The C9 loop invariant: the position configuration is the line-only
default and every logged cost-line parse used it. -/
def C9Inv (st : LState) : Prop :=
  st.hasLineInfo = true ∧ st.hasAddrInfo = false ∧
  ∀ x ∈ st.posParses, x = (false, true)

theorem stepLine_C9 (st : LState) (l : List Char)
    (h : isPositionsLine l = false) (hi : C9Inv st) : C9Inv (stepLine st l).2 := by
  obtain ⟨h1, h2, h3⟩ := hi
  have hf := stepLine_flags st l h
  refine ⟨hf.1.trans h1, hf.2.trans h2, ?_⟩
  rcases stepLine_posParses st l with hp | hp
  · rw [hp]; exact h3
  · rw [hp, h1, h2]
    intro x hx
    rcases List.mem_append.mp hx with hx1 | hx2
    · exact h3 x hx1
    · simpa using hx2

theorem loadLines_C9 :
    ∀ ls (st : LState), (∀ l ∈ ls, isPositionsLine l = false) → C9Inv st →
      C9Inv (loadLines st ls).2 := by
  intro ls
  induction ls with
  | nil =>
    intro st _ hi
    obtain ⟨h1, h2, h3⟩ := hi
    have hf := finalizeL_fields st
    show C9Inv (finalizeL st)
    exact ⟨hf.2.1.trans h1, hf.2.2.1.trans h2, by rw [hf.2.2.2.1]; exact h3⟩
  | cons l ls ih =>
    intro st h hi
    rw [loadLines]
    cases hr : (stepLine st l).1 with
    | false =>
      simp only [hr, Bool.false_eq_true, if_false]
      exact stepLine_C9 st l (h l (by simp)) hi
    | true =>
      simp only [hr, if_true]
      exact ih _ (fun l2 hl2 => h l2 (by simp [hl2]))
        (stepLine_C9 st l (h l (by simp)) hi)

/-- Claim C9: `hasLineInfo` defaults to true and `hasAddrInfo` to false at
the start of every load, and for any input containing no `positions:`
header line the configuration never changes, so every cost-line position
prefix is parsed with the line-number column only (every entry of the ghost
log of `parsePosition` configurations is `(hasAddrInfo, hasLineInfo) =
(false, true)`). -/
theorem default_positions_line_only (lines : List (List Char))
    (h : ∀ l ∈ lines, isPositionsLine l = false) :
    initState.hasLineInfo = true ∧ initState.hasAddrInfo = false ∧
    (loadTraceLn lines).2.hasLineInfo = true ∧
    (loadTraceLn lines).2.hasAddrInfo = false ∧
    ∀ x ∈ (loadTraceLn lines).2.posParses, x = (false, true) := by
  have hi := loadLines_C9 lines initState h ⟨rfl, rfl, by intro x hx; cases hx⟩
  exact ⟨rfl, rfl, hi.1, hi.2.1, hi.2.2⟩

/-- Witness for claim C9 on a file with one cost line and no `positions:`
header. -/
theorem default_positions_line_only_witness :
    (loadTraceLn [("events: Ir".toList), ("fn=f".toList), ("10 5".toList)]).2.hasLineInfo
        = true ∧
    (loadTraceLn [("events: Ir".toList), ("fn=f".toList),
        ("10 5".toList)]).2.hasAddrInfo = false ∧
    (loadTraceLn [("events: Ir".toList), ("fn=f".toList),
        ("10 5".toList)]).2.posParses = [(false, true)] := by
  have h := default_positions_line_only
    [("events: Ir".toList), ("fn=f".toList), ("10 5".toList)] (by decide)
  exact ⟨h.2.2.1, h.2.2.2.1, by decide⟩

/-! ## Claim C4 — compression-dictionary stability

`compressedObject`, `compressedFile` and `compressedFunction` share the
mechanism `compressedGen`; the stability argument is made once, generically
in the interning function, and instantiated for the three namespaces. -/

/-- Generic fold of `compressedGen` over context-tagged declaration lines. -/
def runCGen (resolve : γ → List Char → α) :
    CVec α → List (γ × List Char) → List (Option α) × CVec α
  | v, [] => ([], v)
  | v, gl :: cs =>
    let r := compressedGen (resolve gl.1) v gl.2
    let rest := runCGen resolve r.2 cs
    (r.1 :: rest.1, rest.2)

/-- Generic most-recent-definition semantics. -/
def lastDefG (resolve : γ → List Char → α) (cmds : List (γ × List Char)) (n : Nat) :
    Option α :=
  cmds.foldl
    (fun acc gl =>
      match cKind gl.2 with
      | some (m, some nm) => if m = n then some (resolve gl.1 nm) else acc
      | _ => acc)
    none

/-- The dictionary invariant: the vector is nonempty, each slot holds the
most recent definition bound to it, and occupied slots are in range. -/
def CInvG (resolve : γ → List Char → α) (hist : List (γ × List Char)) (v : CVec α) :
    Prop :=
  1 ≤ v.size ∧ (∀ n, v.tbl n = lastDefG resolve hist n) ∧
  (∀ n a, v.tbl n = some a → n < v.size)

theorem lastDefG_append_one (resolve : γ → List Char → α) (hist : List (γ × List Char))
    (gl : γ × List Char) (n : Nat) :
    lastDefG resolve (hist ++ [gl]) n =
      match cKind gl.2 with
      | some (m, some nm) =>
        if m = n then some (resolve gl.1 nm) else lastDefG resolve hist n
      | _ => lastDefG resolve hist n := by
  unfold lastDefG
  rw [List.foldl_append]
  rfl

/-- On a non-compression (or malformed) line, `compressedGen` leaves the
vector unchanged. -/
theorem cgen_state_of_none {r : List Char → α} {v : CVec α} {l : List Char}
    (h : cKind l = none) : (compressedGen r v l).2 = v := by
  unfold cKind at h
  unfold compressedGen
  split
  · rename_i hcf
    rw [if_pos hcf] at h
    split at h
    · rfl
    · rename_i p hfind
      split at h
      · cases h
      · cases h
  · rfl

/-- On a definition line `(n) nm`, `compressedGen` resolves the stripped
name and stores it at slot `n`. -/
theorem cgen_of_def {r : List Char → α} {v : CVec α} {l : List Char} {n : Nat}
    {nm : List Char} (h : cKind l = some (n, some nm)) :
    compressedGen r v l = (some (r nm), v.ins n (r nm)) := by
  unfold cKind at h
  unfold compressedGen
  split
  · rename_i hcf
    rw [if_pos hcf] at h
    split at h
    · cases h
    · rename_i p hfind
      split at h
      · rename_i hlen
        injection h with h2
        injection h2 with h3 h4
        injection h4 with h5
        subst h3
        subst h5
        simp only [if_pos hlen]
      · cases h
  · rename_i hcf
    rw [if_neg hcf] at h
    cases h

/-- On a reference line `(n)`, `compressedGen` reads slot `n` (error when
out of range) and leaves the vector unchanged. -/
theorem cgen_of_ref {r : List Char → α} {v : CVec α} {l : List Char} {n : Nat}
    (h : cKind l = some (n, none)) :
    compressedGen r v l = (if v.size ≤ n then (none, v) else (v.tbl n, v)) := by
  unfold cKind at h
  unfold compressedGen
  split
  · rename_i hcf
    rw [if_pos hcf] at h
    split at h
    · cases h
    · rename_i p hfind
      split at h
      · cases h
      · rename_i hlen
        injection h with h2
        injection h2 with h3 h4
        subst h3
        simp only [if_neg hlen]
  · rename_i hcf
    rw [if_neg hcf] at h
    cases h

/-- A definition step preserves the dictionary invariant. -/
theorem cinv_def_step (resolve : γ → List Char → α) (hist : List (γ × List Char))
    (v : CVec α) (hI : CInvG resolve hist v) (g : γ) (l : List Char) (n : Nat)
    (nm : List Char) (hk : cKind l = some (n, some nm)) :
    CInvG resolve (hist ++ [(g, l)]) (v.ins n (resolve g nm)) := by
  obtain ⟨hsz, htbl, hbnd⟩ := hI
  have hszle : v.size ≤ (if v.size ≤ n then n * 2 else v.size) := by
    split <;> omega
  have hnlt : n < (if v.size ≤ n then n * 2 else v.size) := by
    split <;> omega
  have hins : v.ins n (resolve g nm) =
      ⟨if v.size ≤ n then n * 2 else v.size,
       fun j => if j = n then some (resolve g nm)
                else if j < (if v.size ≤ n then n * 2 else v.size) then v.tbl j
                else none⟩ := by
    unfold CVec.ins
    rw [if_pos hnlt]
  rw [hins]
  refine ⟨?_, ?_, ?_⟩
  · show 1 ≤ (if v.size ≤ n then n * 2 else v.size)
    omega
  · intro j
    show (if j = n then some (resolve g nm)
          else if j < (if v.size ≤ n then n * 2 else v.size) then v.tbl j
          else none) = lastDefG resolve (hist ++ [(g, l)]) j
    rw [lastDefG_append_one, hk]
    dsimp only
    by_cases hjn : j = n
    · subst hjn
      simp
    · rw [if_neg hjn]
      have hne : ¬(n = j) := fun he => hjn he.symm
      rw [if_neg hne]
      by_cases hjlt : j < (if v.size ≤ n then n * 2 else v.size)
      · rw [if_pos hjlt]
        exact htbl j
      · rw [if_neg hjlt]
        cases hv : v.tbl j with
        | none =>
          have h6 := htbl j
          rw [hv] at h6
          exact h6
        | some a =>
          exact absurd (Nat.lt_of_lt_of_le (hbnd j a hv) hszle) hjlt
  · intro j a hj
    have hj2 : (if j = n then some (resolve g nm)
        else if j < (if v.size ≤ n then n * 2 else v.size) then v.tbl j
        else none) = some a := hj
    show j < (if v.size ≤ n then n * 2 else v.size)
    by_cases hjn : j = n
    · rw [hjn]
      exact hnlt
    · rw [if_neg hjn] at hj2
      by_cases hjlt : j < (if v.size ≤ n then n * 2 else v.size)
      · exact hjlt
      · rw [if_neg hjlt] at hj2
        cases hj2

/-- Every step preserves the dictionary invariant. -/
theorem cinv_step (resolve : γ → List Char → α) (hist : List (γ × List Char))
    (v : CVec α) (hI : CInvG resolve hist v) (gl : γ × List Char) :
    CInvG resolve (hist ++ [gl]) (compressedGen (resolve gl.1) v gl.2).2 := by
  cases hk : cKind gl.2 with
  | none =>
    rw [cgen_state_of_none hk]
    obtain ⟨hsz, htbl, hbnd⟩ := hI
    refine ⟨hsz, ?_, hbnd⟩
    intro n
    rw [lastDefG_append_one, hk]
    exact htbl n
  | some p =>
    obtain ⟨n, onm⟩ := p
    cases onm with
    | some nm =>
      rw [cgen_of_def hk]
      exact cinv_def_step resolve hist v hI gl.1 gl.2 n nm hk
    | none =>
      have hst : (compressedGen (resolve gl.1) v gl.2).2 = v := by
        rw [cgen_of_ref hk]
        split <;> rfl
      rw [hst]
      obtain ⟨hsz, htbl, hbnd⟩ := hI
      refine ⟨hsz, ?_, hbnd⟩
      intro m
      rw [lastDefG_append_one, hk]
      exact htbl m

/-- Under the invariant, a reference resolves to the most recent
definition. -/
theorem cref_result (resolve : γ → List Char → α) (hist : List (γ × List Char))
    (v : CVec α) (hI : CInvG resolve hist v) (g : γ) (l : List Char) (n : Nat)
    (hk : cKind l = some (n, none)) :
    (compressedGen (resolve g) v l).1 = lastDefG resolve hist n := by
  obtain ⟨hsz, htbl, hbnd⟩ := hI
  rw [cgen_of_ref hk]
  by_cases hle : v.size ≤ n
  · rw [if_pos hle]
    cases hv : lastDefG resolve hist n with
    | none => rfl
    | some a =>
      have := hbnd n a (by rw [htbl n, hv])
      omega
  · rw [if_neg hle]
    exact htbl n

/-- Stability of the generic dictionary: in a command sequence, a reference
`(n)` resolves to the entity bound by the most recent definition of `n` in
the preceding commands. -/
theorem runCGen_stability (resolve : γ → List Char → α) :
    ∀ (pre hist : List (γ × List Char)) (v : CVec α), CInvG resolve hist v →
      ∀ (gl : γ × List Char) (rest : List (γ × List Char)) (n : Nat),
        cKind gl.2 = some (n, none) →
        (runCGen resolve v (pre ++ gl :: rest)).1.get? pre.length =
          some (lastDefG resolve (hist ++ pre) n) := by
  intro pre
  induction pre with
  | nil =>
    intro hist v hI gl rest n hk
    rw [List.nil_append, runCGen]
    simp only [List.length_nil, List.get?, List.append_nil]
    rw [cref_result resolve hist v hI gl.1 gl.2 n hk]
  | cons p pre ih =>
    intro hist v hI gl rest n hk
    rw [List.cons_append, runCGen]
    have hI2 := cinv_step resolve hist v hI p
    have hres := ih (hist ++ [p]) _ hI2 gl rest n hk
    simp only [List.length_cons, List.get?]
    rw [hres]
    rw [List.append_assoc]
    rfl

/-- The invariant holds for a freshly initialised vector of positive size. -/
theorem cinv_init (resolve : γ → List Char → α) (k : Nat) (hk : 1 ≤ k) :
    CInvG resolve [] (CVec.mkInit α k) := by
  refine ⟨hk, ?_, ?_⟩
  · intro n
    rfl
  · intro n a h
    cases h

/-- The object runner is the generic runner with name interning and no
context. -/
theorem runObjSeq_eq :
    ∀ (ls : List (List Char)) (v : CVec ObjE),
      runObjSeq v ls =
        runCGen (fun (_ : Unit) nm => nm) v (ls.map (fun l => ((), l))) := by
  intro ls
  induction ls with
  | nil => intro v; rfl
  | cons l ls ih =>
    intro v
    rw [runObjSeq, List.map_cons, runCGen, ih]
    rfl

/-- The file runner is the generic runner with name interning and no
context. -/
theorem runFileSeq_eq :
    ∀ (ls : List (List Char)) (v : CVec FileE),
      runFileSeq v ls =
        runCGen (fun (_ : Unit) nm => nm) v (ls.map (fun l => ((), l))) := by
  intro ls
  induction ls with
  | nil => intro v; rfl
  | cons l ls ih =>
    intro v
    rw [runFileSeq, List.map_cons, runCGen, ih]
    rfl

/-- The function runner is the generic runner with triple interning under
the per-line context. -/
theorem runFuncSeq_eq :
    ∀ (ls : List ((Option FileE × Option ObjE) × List Char)) (v : CVec FuncE),
      runFuncSeq v ls =
        runCGen (fun (g : Option FileE × Option ObjE) nm => FuncE.mk nm g.1 g.2) v ls := by
  intro ls
  induction ls with
  | nil => intro v; rfl
  | cons gl ls ih =>
    intro v
    obtain ⟨⟨f, o⟩, l⟩ := gl
    rw [runFuncSeq, runCGen, ih]
    rfl

/-- `lastDefObj` is the generic most-recent-definition semantics. -/
theorem lastDefObj_eq (ls : List (List Char)) (n : Nat) :
    lastDefObj ls n =
      lastDefG (fun (_ : Unit) nm => nm) (ls.map (fun l => ((), l))) n := by
  unfold lastDefObj lastDefG
  rw [List.foldl_map]

/-- `lastDefFile` is the generic most-recent-definition semantics. -/
theorem lastDefFile_eq (ls : List (List Char)) (n : Nat) :
    lastDefFile ls n =
      lastDefG (fun (_ : Unit) nm => nm) (ls.map (fun l => ((), l))) n := by
  unfold lastDefFile lastDefG
  rw [List.foldl_map]

/-- `lastDefFunc` is the generic most-recent-definition semantics. -/
theorem lastDefFunc_eq (ls : List ((Option FileE × Option ObjE) × List Char)) (n : Nat) :
    lastDefFunc ls n =
      lastDefG (fun (g : Option FileE × Option ObjE) nm => FuncE.mk nm g.1 g.2) ls n :=
  rfl

/-- Claim C4: in any sequence of compression lines of one namespace
(objects, files, or functions) where a reference `(n)` is preceded by at
least one definition of `n`, the reference resolves to the entity bound by
the most recent definition of `n`; a later `(n) name2` overwrites slot `n`,
so the same reference may resolve to different entities at different points
of the file. -/
theorem compression_dictionary_stability :
    (∀ (cmds pre rest : List (List Char)) (l : List Char) (n : Nat),
        cmds = pre ++ l :: rest → cKind l = some (n, none) →
        (lastDefObj pre n).isSome = true →
        (runObjSeq (CVec.mkInit ObjE 100) cmds).1.get? pre.length =
          some (lastDefObj pre n)) ∧
    (∀ (cmds pre rest : List (List Char)) (l : List Char) (n : Nat),
        cmds = pre ++ l :: rest → cKind l = some (n, none) →
        (lastDefFile pre n).isSome = true →
        (runFileSeq (CVec.mkInit FileE 1000) cmds).1.get? pre.length =
          some (lastDefFile pre n)) ∧
    (∀ (cmds pre rest : List ((Option FileE × Option ObjE) × List Char))
        (gl : (Option FileE × Option ObjE) × List Char) (n : Nat),
        cmds = pre ++ gl :: rest → cKind gl.2 = some (n, none) →
        (lastDefFunc pre n).isSome = true →
        (runFuncSeq (CVec.mkInit FuncE 10000) cmds).1.get? pre.length =
          some (lastDefFunc pre n)) := by
  refine ⟨?_, ?_, ?_⟩
  · intro cmds pre rest l n hc hk _
    subst hc
    rw [runObjSeq_eq, List.map_append, List.map_cons, lastDefObj_eq]
    have h := runCGen_stability (fun (_ : Unit) nm => nm)
      (pre.map (fun l => ((), l))) [] (CVec.mkInit ObjE 100)
      (cinv_init _ 100 (by omega)) ((), l) (rest.map (fun l => ((), l))) n hk
    rw [List.nil_append, List.length_map] at h
    exact h
  · intro cmds pre rest l n hc hk _
    subst hc
    rw [runFileSeq_eq, List.map_append, List.map_cons, lastDefFile_eq]
    have h := runCGen_stability (fun (_ : Unit) nm => nm)
      (pre.map (fun l => ((), l))) [] (CVec.mkInit FileE 1000)
      (cinv_init _ 1000 (by omega)) ((), l) (rest.map (fun l => ((), l))) n hk
    rw [List.nil_append, List.length_map] at h
    exact h
  · intro cmds pre rest gl n hc hk _
    subst hc
    rw [runFuncSeq_eq, lastDefFunc_eq]
    have h := runCGen_stability
      (fun (g : Option FileE × Option ObjE) nm => FuncE.mk nm g.1 g.2)
      pre [] (CVec.mkInit FuncE 10000)
      (cinv_init _ 10000 (by omega)) gl rest n hk
    rw [List.nil_append] at h
    exact h

/-- Witness for claim C4: an object slot redefined from `libA` to `libB`, a
file slot bound to `a.c`, and a function slot bound to `f`; each later
reference resolves to the most recent binding. -/
theorem compression_dictionary_stability_witness :
    (runObjSeq (CVec.mkInit ObjE 100)
        [("(1) libA".toList), ("(1)".toList), ("(1) libB".toList),
         ("(1)".toList)]).1.get? 3 =
      some (lastDefObj [("(1) libA".toList), ("(1)".toList), ("(1) libB".toList)] 1) ∧
    lastDefObj [("(1) libA".toList), ("(1)".toList), ("(1) libB".toList)] 1 =
      some ("libB".toList) ∧
    (runFileSeq (CVec.mkInit FileE 1000)
        [("(2) a.c".toList), ("(2)".toList)]).1.get? 1 =
      some (lastDefFile [("(2) a.c".toList)] 2) ∧
    (runFuncSeq (CVec.mkInit FuncE 10000)
        [((some ("a.c".toList), some ("libA".toList)), ("(7) f".toList)),
         ((some ("a.c".toList), some ("libA".toList)), ("(7)".toList))]).1.get? 1 =
      some (lastDefFunc [((some ("a.c".toList), some ("libA".toList)),
        ("(7) f".toList))] 7) := by
  refine ⟨?_, by decide, ?_, ?_⟩
  · exact compression_dictionary_stability.1
      [("(1) libA".toList), ("(1)".toList), ("(1) libB".toList), ("(1)".toList)]
      [("(1) libA".toList), ("(1)".toList), ("(1) libB".toList)] [] ("(1)".toList) 1
      rfl (by decide) (by decide)
  · exact compression_dictionary_stability.2.1
      [("(2) a.c".toList), ("(2)".toList)] [("(2) a.c".toList)] [] ("(2)".toList) 2
      rfl (by decide) (by decide)
  · exact compression_dictionary_stability.2.2
      [((some ("a.c".toList), some ("libA".toList)), ("(7) f".toList)),
       ((some ("a.c".toList), some ("libA".toList)), ("(7)".toList))]
      [((some ("a.c".toList), some ("libA".toList)), ("(7) f".toList))] []
      ((some ("a.c".toList), some ("libA".toList)), ("(7)".toList)) 7
      rfl (by decide) (by decide)
